import Mathlib

/-!
Verification of `lib/GithubUtils.js` (expensify-common).

The JavaScript source is shallowly embedded:
* strings are `List Char` (`Str`); JS string literals are translated with `str`;
* a parsed semantic version (`semver/functions/parse` on tags of shape
  `MAJOR.MINOR.PATCH[-BUILD]`) is a `Version`, whose optional numeric `-BUILD`
  suffix is a semver prerelease component for precedence purposes;
* a `Promise` that can resolve, reject, or never settle is an `Outcome`;
* the Octokit `repos.listTags` gateway response is passed in explicitly as an
  `Except GatewayError (List Version)` (tag names are modelled as their parsed
  versions; an unparseable tag name never satisfies a semver range and is never
  selected, and `semverParse` of the anchor is modelled by taking the anchor as
  a `Version`);
* the specific regular expressions of the source are implemented as
  executable matchers over `Str` with JavaScript semantics (leftmost match,
  greedy quantifiers with backtracking, `.` matching anything but CR and LF).
-/

abbrev Str : Type := List Char

def str (s : String) : Str := s.toList

/-- Decimal digits of a natural number, most significant first.
Fuel-based so that it reduces in the kernel; `natDigits` supplies enough fuel. -/
def natDigitsAux : Nat → Nat → Str
  | 0, _ => []
  | fuel + 1, n =>
    if n < 10 then [Char.ofNat (48 + n)]
    else natDigitsAux fuel (n / 10) ++ [Char.ofNat (48 + n % 10)]

def natDigits (n : Nat) : Str := natDigitsAux (n + 1) n

/-- Evaluation of `Number.parseInt(d, 10)` on a digit string. -/
def parseNatDigits (s : Str) : Nat := s.foldl (fun a c => 10 * a + (c.toNat - 48)) 0

/-- A parsed semantic version `major.minor.patch[-build]`; the optional numeric
`-build` suffix sits in the prerelease position for semver precedence. -/
structure Version where
  major : Nat
  minor : Nat
  patch : Nat
  build : Option Nat
deriving DecidableEq

/-- Semver precedence `a < b` for versions with an optional single numeric
prerelease component: lexicographic on major/minor/patch, then a version with a
prerelease precedes the same version without one, and numeric prerelease
components compare numerically. -/
def Version.ltb (a b : Version) : Bool :=
  if a.major ≠ b.major then decide (a.major < b.major)
  else if a.minor ≠ b.minor then decide (a.minor < b.minor)
  else if a.patch ≠ b.patch then decide (a.patch < b.patch)
  else match a.build, b.build with
    | some _, none => true
    | some x, some y => decide (x < y)
    | _, _ => false

def Version.leb (a b : Version) : Bool := a.ltb b || decide (a = b)

/-- Rendering of a `Version` back to its tag string (`SemVer.prototype.version`,
also what `${tagSemver}` interpolates). -/
def versionToStr (v : Version) : Str :=
  natDigits v.major ++ '.' :: natDigits v.minor ++ '.' :: natDigits v.patch ++
    (match v.build with
      | none => []
      | some b => '-' :: natDigits b)

/-- The `semverLevel` argument of `generateVersionComparisonURL`. -/
inductive SemverLevel where
  | major
  | minor
  | patch
  | build
deriving DecidableEq

/-- The per-level `semverSatisfies(repoTag, range, includePrerelease)` check of
`generateVersionComparisonURL` (GithubUtils.js lines 107-142).
node-semver desugars an X-range with `includePrerelease` using a `-0` floor
(`replaceXRange` appends `pr = '-0'`): MAJOR is `< M.x.x`, i.e. `< M.0.0-0`;
MINOR is `< M.m.x`, i.e. `< M.m.0-0` — so prerelease candidates `M.m.0-b` are
NOT accepted by MINOR.  PATCH is the plain comparator `< M.m.p[-b]` (the full
anchor, no X-range, hence no floor); BUILD is `repoTag !== tagSemver.version`
together with the plain `<= M.m.p`.  All comparisons are pure semver
precedence. -/
def satisfiesLevel (level : SemverLevel) (anchor candidate : Version) : Bool :=
  match level with
  | .major => candidate.ltb ⟨anchor.major, 0, 0, some 0⟩
  | .minor => candidate.ltb ⟨anchor.major, anchor.minor, 0, some 0⟩
  | .patch => candidate.ltb anchor
  | .build => decide (candidate ≠ anchor) && candidate.leb ⟨anchor.major, anchor.minor, anchor.patch, none⟩

/-- Embedding of `getComparisonURL` (GithubUtils.js lines 95-97). -/
def getComparisonURL (previousTag currentTag : Str) : Str :=
  str "https://github.com/Expensify/Expensify.cash/compare/" ++ previousTag ++ str "..." ++ currentTag

/-- Failure of the Octokit gateway call (contents irrelevant here). -/
inductive GatewayError where
  | apiError
deriving DecidableEq

/-- Result of one JS `Promise`: it can resolve, reject, or never settle. -/
inductive Outcome (α : Type) where
  | resolved : α → Outcome α
  | rejected : GatewayError → Outcome α
  | pending : Outcome α
deriving DecidableEq

/-- Embedding of `generateVersionComparisonURL` (GithubUtils.js lines 93-147).  The Octokit
tag listing is passed in as `tagsResult`.  `data.some(...)` resolves on the
first listed tag satisfying the level's range; if the callback never returns
true the promise is never settled (`Outcome.pending`); a gateway failure is
forwarded to `reject`. -/
def generateVersionComparisonURL (tagsResult : Except GatewayError (List Version))
    (anchor : Version) (level : SemverLevel) : Outcome Str :=
  match tagsResult with
  | .error e => .rejected e
  | .ok tags =>
    match tags.find? (fun t => satisfiesLevel level anchor t) with
    | some t => .resolved (getComparisonURL (versionToStr t) (versionToStr anchor))
    | none => .pending

/-- The character class `.` of a JavaScript regex: any character except CR and LF. -/
def notCRLF (c : Char) : Bool := !(c = '\r' || c = '\n')

/-- Match a literal pattern at the head of a string, returning the rest. -/
def dropLit : Str → Str → Option Str
  | [], s => some s
  | _ :: _, [] => none
  | p :: ps, c :: cs => if c = p then dropLit ps cs else none

/-- One entry of a literal-with-wildcards pattern: `none` is a `.` wildcard. -/
def patOk : Option Char → Char → Bool
  | some a, c => c = a
  | none, _ => true

/-- Match a literal-with-wildcards pattern at the head of a string, returning
the consumed characters and the rest. -/
def matchPat : List (Option Char) → Str → Option (Str × Str)
  | [], s => some ([], s)
  | _ :: _, [] => none
  | p :: ps, c :: cs =>
    if patOk p c then (matchPat ps cs).map (fun q => (c :: q.1, q.2)) else none

/-- Translation of a regex fragment whose unescaped `.` characters are
wildcards (as in the interpolated URLs of GithubUtils.js). -/
def wildDots (s : String) : List (Option Char) :=
  s.toList.map (fun c => if c = '.' then none else some c)

/-- Matcher for `https?://` — greedy optional `s` with backtracking. -/
def schemeMunch (s : Str) : Option Str :=
  match dropLit (str "http") s with
  | none => none
  | some rest =>
    match dropLit (str "s://") rest with
    | some r2 => some r2
    | none => dropLit (str "://") rest

/-- Matcher for `(?:github\.com|api\.github\.com)` — the escaped dots are also matched by
the wildcard entry, which accepts any character including a literal dot; the
branches are mutually exclusive on the first character, so JS backtracking
order does not matter. -/
def hostMunch (s : Str) : Option Str :=
  match matchPat (wildDots "github.com") s with
  | some q => some q.2
  | none => (matchPat (wildDots "api.github.com") s).map (fun q => q.2)

/-- Does `seg` (e.g. `/pull/`) match at offset `b` of `l`, followed by at least
one digit (the mandatory first character of `([0-9]+)`)? -/
def segDigitAt (seg : Str) (l : Str) (b : Nat) : Bool :=
  match dropLit seg (l.drop b) with
  | some (c :: _) => c.isDigit
  | _ => false

/-- Offsets `b` at which some alternative of `(?:pull|issues)` can match, for a
given end-of-first-`.*` offset `a`; the second `.*` forces `a < b`. -/
def candidatesB (segs : List Str) (l : Str) (b : Nat) : Bool :=
  segs.any (fun seg => segDigitAt seg l b)

/-- The backtracking engine maximizes the first `.*` (so the largest offset `a`
with `l[a] = '/'` admitting a later segment match), then the second `.*` (the
largest admissible `b`). -/
def bestA (segs : List Str) (l : Str) : Option Nat :=
  ((List.range (l.length + 1)).filter
    (fun a => decide (l[a]? = some '/') &&
      ((List.range (l.length + 1)).filter (fun b => decide (a < b) && candidatesB segs l b)).length ≠ 0)).max?

def bestB (segs : List Str) (l : Str) (a : Nat) : Option Nat :=
  ((List.range (l.length + 1)).filter (fun b => decide (a < b) && candidatesB segs l b)).max?

/-- The number captured by `([0-9]+)` at the chosen offset: the greedy digit
run after the matching segment. -/
def capAt (segs : List Str) (l : Str) (b : Nat) : Option Nat :=
  match segs.find? (fun seg => segDigitAt seg l b) with
  | none => none
  | some seg =>
    match dropLit seg (l.drop b) with
    | none => none
    | some rest => some (parseNatDigits (rest.takeWhile Char.isDigit))

/-- Match `/.*/.*/(?:seg alternatives)/([0-9]+).*` inside the `.`-reachable
line `l`, returning the captured number. -/
def urlNumberInLine (segs : List Str) (l : Str) : Option Nat :=
  match bestA segs l with
  | none => none
  | some a =>
    match bestB segs l a with
    | none => none
    | some b => capAt segs l b

/-- Attempt the whole URL regex at one start position: scheme, host, a literal
`/`, then the slash-and-segment search within the current line. -/
def urlNumberAt (segs : List Str) (s : Str) : Option Nat :=
  match schemeMunch s with
  | none => none
  | some r1 =>
    match hostMunch r1 with
    | none => none
    | some r2 =>
      match r2 with
      | '/' :: r3 => urlNumberInLine segs (r3.takeWhile notCRLF)
      | _ => none

/-- Leftmost-match scanning: try the attempt at every start position, earliest
position first (JS `String.match` on an unanchored regex). -/
def scanOpt {α : Type} (att : Str → Option α) : Str → Option α
  | [] => att []
  | c :: cs =>
    match att (c :: cs) with
    | some r => some r
    | none => scanOpt att cs

/-- Error kinds thrown by GithubUtils. -/
inductive GithubError where
  | malformedChecklist
  | invalidPullRequestURL
  | invalidIssueURL
  | invalidIssueOrPullRequestURL
deriving DecidableEq

deriving instance DecidableEq for Except

/-- Embedding of `GithubUtils.getPullRequestNumberFromURL` (lines 229-235). -/
def getPullRequestNumberFromURL (u : Str) : Except GithubError Nat :=
  match scanOpt (urlNumberAt [str "/pull/"]) u with
  | some n => .ok n
  | none => .error .invalidPullRequestURL

/-- Embedding of `GithubUtils.getIssueNumberFromURL` (lines 244-250). -/
def getIssueNumberFromURL (u : Str) : Except GithubError Nat :=
  match scanOpt (urlNumberAt [str "/issues/"]) u with
  | some n => .ok n
  | none => .error .invalidIssueURL

/-- Embedding of `GithubUtils.getIssueOrPullRequestNumberFromURL` (lines 259-265). -/
def getIssueOrPullRequestNumberFromURL (u : Str) : Except GithubError Nat :=
  match scanOpt (urlNumberAt [str "/pull/", str "/issues/"]) u with
  | some n => .ok n
  | none => .error .invalidIssueOrPullRequestURL

/-- Embedding of `_.unique` (no iteratee): keep the first occurrence of each value. -/
def uniqueListAux (seen : List Str) : List Str → List Str
  | [] => []
  | x :: xs => if x ∈ seen then uniqueListAux seen xs else x :: uniqueListAux (x :: seen) xs

def uniqueList (l : List Str) : List Str := uniqueListAux [] l

/-- Sort key of a PR URL inside `_.sortBy` (line 190); on URLs that fail to
parse the JS iteratee throws instead, which the encode operation guards. -/
def prKey (u : Str) : Nat :=
  match getPullRequestNumberFromURL u with
  | .ok n => n
  | .error _ => 0

/-- Sort key of a deploy-blocker URL inside `_.sortBy` (line 192). -/
def itemKey (u : Str) : Nat :=
  match getIssueOrPullRequestNumberFromURL u with
  | .ok n => n
  | .error _ => 0

/-- Embedding of `_.sortBy(_.unique(PRList), getPullRequestNumberFromURL)` (line 190):
a stable ascending sort by key of the deduplicated list. -/
def sortedPRListOf (l : List Str) : List Str :=
  List.insertionSort (fun a b => prKey a ≤ prKey b) (uniqueList l)

/-- Embedding of `_.sortBy(_.unique(deployBlockers), getIssueOrPullRequestNumberFromURL)`
(line 192). -/
def sortedDeployBlockersOf (l : List Str) : List Str :=
  List.insertionSort (fun a b => itemKey a ≤ itemKey b) (uniqueList l)

def isOkNat (e : Except GithubError Nat) : Bool :=
  match e with
  | .ok _ => true
  | .error _ => false

/-- Result of `generateStagingDeployCashBody`: a rendered body, a resolution
with `undefined` after the `.catch` logged a warning, or a never-settled
promise (when the inner comparator never settles). -/
inductive EncodeOutcome where
  | body : Str → EncodeOutcome
  | warned : EncodeOutcome
  | pending : EncodeOutcome
deriving DecidableEq

/-- One checklist line (lines 201-204 and 210-213): `- [x]` when the URL is in
the verified/resolved list, else `- [ ]`, then a space, the URL, and CRLF. -/
def renderLine (checked : Bool) (u : Str) : Str :=
  (if checked then str "- [x]" else str "- [ ]") ++ ' ' :: (u ++ str "\r\n")

/-- Embedding of `generateStagingDeployCashBody` (lines 181-220).  The comparator is run at
level BUILD; a rejection is swallowed by the `.catch` (console.warn) and the
promise resolves with `undefined` (`warned`); a never-settling comparator means
the whole encode never settles.  The `_.sortBy` iteratee throws on a URL that
fails to parse, and that exception is caught by the same `.catch` (`warned`).
Otherwise the body text is assembled: header lines always, the PR section when
the input PRList is nonempty, the deploy-blocker section (preceded by a blank
line) when the input deployBlockers is nonempty. -/
def generateStagingDeployCashBody (tagsResult : Except GatewayError (List Version)) (tag : Version)
    (PRList verifiedPRList deployBlockers resolvedDeployBlockers : List Str) : EncodeOutcome :=
  match generateVersionComparisonURL tagsResult tag .build with
  | .pending => .pending
  | .rejected _ => .warned
  | .resolved comparisonURL =>
    if ((uniqueList PRList).all (fun u => isOkNat (getPullRequestNumberFromURL u)) &&
        (uniqueList deployBlockers).all (fun u => isOkNat (getIssueOrPullRequestNumberFromURL u))) then
      .body (str "**Release Version:** " ++ versionToStr tag ++ str "\r\n"
        ++ str "**Compare Changes:** " ++ comparisonURL ++ str "\r\n"
        ++ (if PRList.isEmpty then [] else
            str "**This release contains changes from the following pull requests:**\r\n"
            ++ ((sortedPRListOf PRList).map (fun u => renderLine (verifiedPRList.contains u) u)).flatten)
        ++ (if deployBlockers.isEmpty then [] else
            str "\r\n**Deploy Blockers:**\r\n"
            ++ ((sortedDeployBlockersOf deployBlockers).map
                  (fun u => renderLine (resolvedDeployBlockers.contains u) u)).flatten))
    else .warned

/-- Greedy `[0-9]+` run: the nonempty digit run and the rest, or failure. -/
def munchNum (s : Str) : Option (Str × Str) :=
  if (s.takeWhile Char.isDigit).isEmpty then none
  else some (s.takeWhile Char.isDigit, s.dropWhile Char.isDigit)

/-- Literal `\.` step. -/
def munchDot : Str → Option Str
  | '.' :: r => some r
  | _ => none

/-- The mandatory `([0-9]+)\.([0-9]+)\.([0-9]+)` core of the version regex
(line 61) matched at one position.  A maximal digit run is never followed by a
digit, so the greedy runs admit no backtracking. -/
def versionCore (s : Str) : Option (Str × Str) :=
  match munchNum s with
  | none => none
  | some (d1, r1) =>
    match munchDot r1 with
    | none => none
    | some r1b =>
      match munchNum r1b with
      | none => none
      | some (d2, r2) =>
        match munchDot r2 with
        | none => none
        | some r2b =>
          match munchNum r2b with
          | none => none
          | some (d3, r3) => some (d1 ++ '.' :: d2 ++ '.' :: d3, r3)

/-- The whole version regex with its greedy optional build group `(?:-([0-9]+))?`,
taken exactly when a `-` followed by a digit is next (if the hyphen is present
but no digit follows, the group backtracks to the empty alternative, which then
ends the match before the hyphen). -/
def versionMunch (s : Str) : Option (Str × Str) :=
  match versionCore s with
  | none => none
  | some (core, r3) =>
    match r3 with
    | '-' :: r4 =>
      match munchNum r4 with
      | none => some (core, r3)
      | some (d4, r5) => some (core ++ '-' :: d4, r5)
    | _ => some (core, r3)

def versionAttempt (s : Str) : Option Str := (versionMunch s).map (fun q => q.1)

/-- First match of the version regex in a body (`issue.body.match(versionRegex)[0]`,
line 62). -/
def versionFirstMatch (s : Str) : Option Str := scanOpt versionAttempt s

/-- The interpolated prefix of `compareURLRegex` (line 65): the unescaped dots
of `EXPENSIFY_CASH_URL` are wildcards. -/
def comparePat : List (Option Char) := wildDots "https://github.com/Expensify/Expensify.cash/compare/"

/-- Matcher for `compareURLRegex` at one position: the URL prefix, a version, the
escaped `\.\.\.`, and a second version; the whole match is returned
(`match(...)[0]`). -/
def compareAttempt (s : Str) : Option Str :=
  match matchPat comparePat s with
  | none => none
  | some (consumed, r1) =>
    match versionMunch r1 with
    | none => none
    | some (v1, r2) =>
      match dropLit (str "...") r2 with
      | none => none
      | some r3 =>
        match versionMunch r3 with
        | none => none
        | some (v2, _) => some (consumed ++ v1 ++ str "..." ++ v2)

def compareFirstMatch (s : Str) : Option Str := scanOpt compareAttempt s

/-- One `(?:.*\r\n)` chunk: a maximal CR/LF-free run followed by a literal
CRLF (`.` cannot match the CR, so the decomposition is rigid). -/
def lineSplit (s : Str) : Option (Str × Str) :=
  match s.dropWhile notCRLF with
  | '\r' :: '\n' :: rest => some (s.takeWhile notCRLF, rest)
  | _ => none

/-- The maximal chunk sequence of `(?:.*\r\n)+` together with the unconsumed
leftover.  Fuel-based for kernel reduction; each chunk consumes at least two
characters, so `chunksOf` always supplies enough fuel. -/
def chunksAux : Nat → Str → List Str × Str
  | 0, s => ([], s)
  | fuel + 1, s =>
    match lineSplit s with
    | none => ([], s)
    | some (c, rest) =>
      match chunksAux fuel rest with
      | (cs, leftover) => (c :: cs, leftover)

def chunksOf (s : Str) : List Str × Str := chunksAux s.length s

/-- Index of the last empty chunk: backtracking of the greedy `(?:.*\r\n)+`
stops at the largest group end that is followed by a literal `\r\n`, i.e. just
before the last empty chunk. -/
def lastEmptyIdx : List Str → Option Nat
  | [] => none
  | c :: cs =>
    match lastEmptyIdx cs with
    | some j => some (j + 1)
    | none => if c.isEmpty then some 0 else none

/-- The group of `/pull requests:\*\*\r\n((?:.*\r\n)+)\r\n/` (line 70) after
the header matched: the greedy chunk sequence backtracks until the next two
characters are a CRLF (an empty chunk), and the group needs at least one
chunk. -/
def prGroupOf (rest : Str) : Option Str :=
  match lastEmptyIdx (chunksOf rest).1 with
  | none => none
  | some j =>
    if 1 ≤ j then some ((((chunksOf rest).1.take j).map (fun c => c ++ str "\r\n")).flatten)
    else none

def prSectionPat : Str := str "pull requests:**\r\n"

def prSectionAttempt (s : Str) : Option Str :=
  match dropLit prSectionPat s with
  | none => none
  | some rest => prGroupOf rest

/-- Embedding of `issue.body.match(/pull requests:\*\*\r\n((?:.*\r\n)+)\r\n/)[1]`. -/
def prSectionMatch (s : Str) : Option Str := scanOpt prSectionAttempt s

/-- The group of `/Deploy Blockers:\*\*\r\n((?:.*\r\n)+)/` (line 73) after the
header matched: all chunks, at least one. -/
def blockerGroupOf (rest : Str) : Option Str :=
  match (chunksOf rest).1 with
  | [] => none
  | cs => some ((cs.map (fun c => c ++ str "\r\n")).flatten)

def blockerSectionPat : Str := str "Deploy Blockers:**\r\n"

def blockerSectionAttempt (s : Str) : Option Str :=
  match dropLit blockerSectionPat s with
  | none => none
  | some rest => blockerGroupOf rest

/-- Embedding of `issue.body.match(/Deploy Blockers:\*\*\r\n((?:.*\r\n)+)/)[1]`. -/
def blockerSectionMatch (s : Str) : Option Str := scanOpt blockerSectionAttempt s

/-- Matcher for `checklistItemRegex` (line 68) at one position: the literal
checkbox prefix, then the issue-or-pull-request URL pattern anchored right
after it.  The capture group wraps the whole URL pattern including its final
greedy `.*`, so the captured entry runs to the end of the line; `matchAll`
resumes scanning after the match, i.e. at that CR. -/
def itemSegs : List Str := [str "/pull/", str "/issues/"]

def itemAttempt (s : Str) : Option (Str × Str) :=
  match s with
  | '-' :: ' ' :: '[' :: c :: ']' :: ' ' :: rest =>
    if c = ' ' || c = 'x' then
      match urlNumberAt itemSegs rest with
      | some _ => some (rest.takeWhile notCRLF, rest.dropWhile notCRLF)
      | none => none
    else none
  | _ => none

/-- Embedding of `[...section.matchAll(checklistItemRegex)].map(match => match[1])`:
left-to-right non-overlapping scan collecting group 1.  Fuel-based for kernel
reduction; every step consumes at least one character. -/
def checklistScanAux : Nat → Str → List Str
  | 0, _ => []
  | _ + 1, [] => []
  | fuel + 1, c :: cs =>
    match itemAttempt (c :: cs) with
    | some (cap, rest) => cap :: checklistScanAux fuel rest
    | none => checklistScanAux fuel cs

def checklistScan (s : Str) : List Str := checklistScanAux s.length s

/-- Embedding of the backquote-stripping replace on the matched tag (line 62). -/
def stripTicks (s : Str) : Str := s.filter (fun c => c ≠ Char.ofNat 96)

/-- The fields of the GitHub issue object consumed by `getStagingDeployCashData`. -/
structure IssueInput where
  title : Str
  url : Str
  labels : List Str
  body : Str
deriving DecidableEq

/-- The record returned by `getStagingDeployCashData` (lines 76-78). -/
structure StagingDeployCashData where
  title : Str
  url : Str
  labels : List Str
  tag : Str
  comparisonURL : Str
  PRList : List Str
  deployBlockers : List Str
deriving DecidableEq

/-- Embedding of `getStagingDeployCashData` (lines 59-82): the four extractions against the
body; if any of them has no match the JS dereference of `null` throws, and the
`catch` turns every such failure into the single MalformedChecklist error. -/
def getStagingDeployCashData (issue : IssueInput) : Except GithubError StagingDeployCashData :=
  match versionFirstMatch issue.body, compareFirstMatch issue.body,
    prSectionMatch issue.body, blockerSectionMatch issue.body with
  | some tagMatch, some comparisonURL, some prSection, some blockerSection =>
    .ok ⟨issue.title, issue.url, issue.labels, stripTicks tagMatch, comparisonURL,
      checklistScan prSection, checklistScan blockerSection⟩
  | _, _, _, _ => .error .malformedChecklist

/-- Characters allowed in the owner/repository segments of a canonical GitHub
URL: alphanumeric plus hyphen, underscore, and dot. -/
def SafeChar (c : Char) : Bool := c.isAlphanum || c = '-' || c = '_' || c = '.'

/-- A canonical issue-or-pull-request URL shape for one of the given segment
alternatives: scheme, host, nonempty safe owner, a slash, safe repository
name, the segment (e.g. `/pull/`) and a decimal number. -/
def CanonURLFor (segs : List Str) (u : Str) : Prop :=
  ∃ o r seg n, seg ∈ segs ∧
    u = str "https://github.com/" ++ (o ++ '/' :: (r ++ (seg ++ natDigits n))) ∧
    o ≠ [] ∧ r ≠ [] ∧ (∀ c ∈ o, SafeChar c = true) ∧ (∀ c ∈ r, SafeChar c = true) ∧
    (∀ c ∈ seg, notCRLF c = true)

/-- A checklist entry whose URL pattern matches at its start whatever follows
it on the line, with no CR/LF inside. -/
def ItemMatchable (u : Str) : Prop :=
  (∀ c ∈ u, notCRLF c = true) ∧ ∀ tail : Str, ∃ k, urlNumberAt itemSegs (u ++ tail) = some k

/-- Absence of an adjacent occurrence of the two characters c₁ c₂ in a string;
used to rule out spurious matches of a section header inside earlier text. -/
def PairFree (c₁ c₂ : Char) (l : Str) : Prop :=
  ∀ i : Nat, ¬ (l[i]? = some c₁ ∧ l[i + 1]? = some c₂)

/-- The canonical nested-append shape of a body rendered by
`generateStagingDeployCashBody` with nonempty PR and deploy-blocker sections,
split at the points where the decode regexes anchor. -/
def bodyShape (anchor prev : Version) (prLines blockerLines : Str) : Str :=
  str "**Release Version:** " ++ (versionToStr anchor ++
    (str "\r\n**Compare Changes:** " ++
      (getComparisonURL (versionToStr prev) (versionToStr anchor) ++
        (str "\r\n**This release contains changes from the following " ++
          (prSectionPat ++ (prLines ++ (str "\r\n**" ++ (blockerSectionPat ++ blockerLines))))))))

/-- The checkbox-and-URL content of one checklist line, without its CRLF. -/
def lineContent (checked : Bool) (u : Str) : Str :=
  (if checked then str "- [x]" else str "- [ ]") ++ ' ' :: u

/-- A second body for the decode-error witnesses: valid tag, comparison URL and
PR section, but no deploy-blocker section. -/
def noBlockerBody : Str :=
  str "**Release Version:** 2.1.0\r\n**Compare Changes:** https://github.com/Expensify/Expensify.cash/compare/2.0.9...2.1.0\r\n**This release contains changes from the following pull requests:**\r\n- [ ] https://github.com/Org/Repo/pull/7\r\n"

/-- The exact body rendered by `generateStagingDeployCashBody` for tag 1.0.1,
previous tag 1.0.0, the single PR 2 and no deploy blockers (verified below by
kernel computation); without a deploy-blocker section the PR-section regex has
no blank line to terminate its group, so decoding fails. -/
def emptyBlockerBody : Str :=
  str "**Release Version:** 1.0.1\r\n**Compare Changes:** https://github.com/Expensify/Expensify.cash/compare/1.0.0...1.0.1\r\n**This release contains changes from the following pull requests:**\r\n- [ ] https://github.com/Org/Repo/pull/2\r\n"

/-- Characterization of semver precedence `ltb` in terms of the components. -/
theorem ltb_iff (a b : Version) : a.ltb b = true ↔
    (a.major < b.major ∨ (a.major = b.major ∧ (a.minor < b.minor ∨ (a.minor = b.minor ∧
      (a.patch < b.patch ∨ (a.patch = b.patch ∧
        ((a.build.isSome ∧ b.build = none) ∨
          (∃ x y, a.build = some x ∧ b.build = some y ∧ x < y)))))))) := by
  rcases a with ⟨aM, am, ap, ab⟩
  rcases b with ⟨bM, bm, bp, bb⟩
  unfold Version.ltb
  cases ab <;> cases bb <;> simp only [] <;> split_ifs <;> simp_all

/-- C1 counterexample: with anchor 2.3.5, the MINOR range also accepts the
candidate 1.9.9, whose major version differs from the anchor's. -/
theorem minor_level_counterexample :
    satisfiesLevel SemverLevel.minor ⟨2, 3, 5, none⟩ ⟨1, 9, 9, none⟩ = true ∧
      ¬ (Version.major ⟨1, 9, 9, none⟩ = Version.major ⟨2, 3, 5, none⟩ ∧
          Version.minor ⟨1, 9, 9, none⟩ < Version.minor ⟨2, 3, 5, none⟩) := by
  decide

/-- C1 (amended): the MINOR range predicate used by `generateVersionComparisonURL`
is `< anchor.major.anchor.minor.0-0` (the X-range `-0` floor of includePrerelease),
and it holds of a candidate iff the candidate's major version is lower than the
anchor's, or the majors are equal and the candidate's minor version is lower.
In particular lower-major candidates are also accepted, so the spec's "same
major, lower minor" does not follow; and no candidate with the anchor's major
and minor — not even a prerelease `M.m.0-b` — is accepted. -/
theorem minor_level_characterization (anchor candidate : Version) :
    satisfiesLevel SemverLevel.minor anchor candidate = true ↔
      (candidate.major < anchor.major ∨
        (candidate.major = anchor.major ∧ candidate.minor < anchor.minor)) := by
  show Version.ltb _ _ = true ↔ _
  rw [ltb_iff]
  simp only [Nat.not_lt_zero, false_or, Nat.lt_irrefl]
  constructor
  · rintro (h | ⟨h1, h | ⟨h2, h3, h4 | h4⟩⟩)
    · exact Or.inl h
    · exact Or.inr ⟨h1, h⟩
    · exact Option.noConfusion h4.2
    · obtain ⟨x, y, -, hy, hxy⟩ := h4
      injection hy with hy0
      omega
  · rintro (h | ⟨h1, h⟩)
    · exact Or.inl h
    · exact Or.inr ⟨h1, Or.inl h⟩

/-- C3 counterexample: with an empty tag list (so no tag satisfies the PATCH
range for anchor 1.0.0) the comparator's promise is never settled: the outcome
is `pending`, not a rejection with an explicit NotFound error. -/
theorem comparator_no_match_counterexample :
    generateVersionComparisonURL (Except.ok []) ⟨1, 0, 0, none⟩ SemverLevel.patch = Outcome.pending ∧
      generateVersionComparisonURL (Except.ok []) ⟨1, 0, 0, none⟩ SemverLevel.patch ≠
        Outcome.rejected GatewayError.apiError := by
  decide

/-- C3 (amended): whenever the gateway tag listing succeeds but no listed tag
satisfies the level's range predicate relative to the anchor,
`generateVersionComparisonURL` neither resolves nor rejects: its promise stays
pending forever (the original code has no NotFound path). -/
theorem comparator_no_match_pending (tags : List Version) (anchor : Version) (level : SemverLevel)
    (h : ∀ t ∈ tags, satisfiesLevel level anchor t = false) :
    generateVersionComparisonURL (Except.ok tags) anchor level = Outcome.pending := by
  have hf : tags.find? (fun t => satisfiesLevel level anchor t) = none := by
    rw [List.find?_eq_none]
    intro t ht
    simp [h t ht]
  simp only [generateVersionComparisonURL, hf]

/-- C3 witness: the amended pending behaviour at a concrete input where the
only listed tag is the prerelease 2.3.0-1, which the MINOR range `< 2.3.0-0`
of anchor 2.3.5 rejects, so the comparator hangs. -/
theorem comparator_no_match_pending_witness :
    generateVersionComparisonURL (Except.ok [⟨2, 3, 0, some 1⟩]) ⟨2, 3, 5, none⟩
      SemverLevel.minor = Outcome.pending :=
  comparator_no_match_pending _ _ _ (by decide)

/-- C9: with level PATCH, anchor 2.3.5 and tags listed as 2.3.4, 2.3.6, 1.9.9,
the comparator resolves on 2.3.4 — the first listed tag strictly below the full
anchor — and builds the comparison URL from it. -/
theorem patch_level_first_match_example :
    generateVersionComparisonURL
        (Except.ok [⟨2, 3, 4, none⟩, ⟨2, 3, 6, none⟩, ⟨1, 9, 9, none⟩])
        ⟨2, 3, 5, none⟩ SemverLevel.patch =
      Outcome.resolved (str "https://github.com/Expensify/Expensify.cash/compare/2.3.4...2.3.5") := by
  decide

/-- C6: the pull-request parser extracts 482 from a `/pull/482` URL; the
issue-only parser rejects that same URL with the invalid-URL error; and the
issue-or-pull-request parser returns 123 for both the `/pull/123` and the
`/issues/123` shape. -/
theorem url_number_parsers_examples :
    getPullRequestNumberFromURL (str "https://github.com/Org/Repo/pull/482") = Except.ok 482 ∧
      getIssueNumberFromURL (str "https://github.com/Org/Repo/pull/482") =
        Except.error GithubError.invalidIssueURL ∧
      getIssueOrPullRequestNumberFromURL (str "https://github.com/Org/Repo/pull/123") = Except.ok 123 ∧
      getIssueOrPullRequestNumberFromURL (str "https://github.com/Org/Repo/issues/123") = Except.ok 123 := by
  decide

/-- Elements produced by `uniqueListAux` avoid the seen accumulator and repeat
no value. -/
theorem uniqueListAux_nodup (l : List Str) : ∀ seen : List Str,
    (uniqueListAux seen l).Nodup ∧ ∀ x ∈ uniqueListAux seen l, x ∉ seen := by
  induction l with
  | nil => intro seen; simp [uniqueListAux]
  | cons x xs ih =>
    intro seen
    unfold uniqueListAux
    by_cases hx : x ∈ seen
    · simp only [if_pos hx]
      exact ih seen
    · simp only [if_neg hx]
      obtain ⟨ihn, ihs⟩ := ih (x :: seen)
      refine ⟨List.nodup_cons.mpr ⟨fun hmem => ?_, ihn⟩, ?_⟩
      · have := ihs x hmem
        simp at this
      · intro y hy
        rcases List.mem_cons.mp hy with rfl | hy2
        · exact hx
        · have := ihs y hy2
          intro hcon
          exact this (List.mem_cons_of_mem _ hcon)

theorem uniqueList_nodup (l : List Str) : (uniqueList l).Nodup :=
  (uniqueListAux_nodup l []).1

/-- C5: for every input PRList and deployBlockers list, the lists rendered into
the checklist by `generateStagingDeployCashBody` contain each URL at most once
and are in ascending order of the numeric identifier extracted from the URL
(pull-request number for the PR section, issue-or-pull-request number for the
deploy-blocker section). -/
theorem encode_lists_nodup_sorted (PRList deployBlockers : List Str) :
    (sortedPRListOf PRList).Nodup ∧
      (sortedPRListOf PRList).Pairwise (fun a b => prKey a ≤ prKey b) ∧
      (sortedDeployBlockersOf deployBlockers).Nodup ∧
      (sortedDeployBlockersOf deployBlockers).Pairwise (fun a b => itemKey a ≤ itemKey b) := by
  haveI i1 : IsTotal Str (fun a b => prKey a ≤ prKey b) := ⟨fun a b => Nat.le_total _ _⟩
  haveI i2 : IsTrans Str (fun a b => prKey a ≤ prKey b) := ⟨fun _ _ _ h1 h2 => Nat.le_trans h1 h2⟩
  haveI i3 : IsTotal Str (fun a b => itemKey a ≤ itemKey b) := ⟨fun a b => Nat.le_total _ _⟩
  haveI i4 : IsTrans Str (fun a b => itemKey a ≤ itemKey b) := ⟨fun _ _ _ h1 h2 => Nat.le_trans h1 h2⟩
  refine ⟨?_, ?_, ?_, ?_⟩
  · exact ((List.perm_insertionSort _ _).symm).nodup (uniqueList_nodup PRList)
  · exact List.sorted_insertionSort _ _
  · exact ((List.perm_insertionSort _ _).symm).nodup (uniqueList_nodup deployBlockers)
  · exact List.sorted_insertionSort _ _

/-- C8: when the Version Comparator rejects (the gateway tag listing failed),
`generateStagingDeployCashBody` does not propagate the error: the `.catch`
logs a warning and the promise resolves with an undefined body. -/
theorem encode_warns_on_comparator_rejection (tagsResult : Except GatewayError (List Version))
    (tag : Version) (PRList verifiedPRList deployBlockers resolvedDeployBlockers : List Str)
    (e : GatewayError)
    (h : generateVersionComparisonURL tagsResult tag SemverLevel.build = Outcome.rejected e) :
    generateStagingDeployCashBody tagsResult tag PRList verifiedPRList deployBlockers
      resolvedDeployBlockers = EncodeOutcome.warned := by
  unfold generateStagingDeployCashBody
  rw [h]

/-- C8 witness: a concrete gateway failure makes encode resolve with a warning. -/
theorem encode_warns_on_comparator_rejection_witness :
    generateStagingDeployCashBody (Except.error GatewayError.apiError) ⟨1, 0, 0, none⟩ [] [] [] [] =
      EncodeOutcome.warned :=
  encode_warns_on_comparator_rejection _ _ _ _ _ _ GatewayError.apiError (by decide)

/-- A successful attempt at the first position wins the scan. -/
theorem scanOpt_pos {α : Type} (att : Str → Option α) (s : Str) (r : α)
    (h : att s = some r) : scanOpt att s = some r := by
  cases s with
  | nil => simpa [scanOpt] using h
  | cons c cs => simp [scanOpt, h]

/-- If the attempt fails on every suffix, the scan fails. -/
theorem scanOpt_none {α : Type} (att : Str → Option α) (s : Str)
    (h : ∀ t, t <:+ s → att t = none) : scanOpt att s = none := by
  induction s with
  | nil => simpa [scanOpt] using h [] (List.suffix_refl [])
  | cons c cs ih =>
    have h0 : att (c :: cs) = none := h (c :: cs) (List.suffix_refl _)
    simp only [scanOpt, h0]
    exact ih (fun t ht => h t (ht.trans (List.suffix_cons c cs)))

/-- Scanning a compound string whose front part admits no match reduces to
scanning the rest. -/
theorem scanOpt_append {α : Type} (att : Str → Option α) (A s : Str)
    (h : ∀ t, t ≠ [] → t <:+ A → att (t ++ s) = none) :
    scanOpt att (A ++ s) = scanOpt att s := by
  induction A with
  | nil => simp
  | cons c cs ih =>
    have h0 : att (c :: cs ++ s) = none := h (c :: cs) (by simp) (List.suffix_refl _)
    show (match att (c :: cs ++ s) with
      | some r => some r
      | none => scanOpt att (cs ++ s)) = scanOpt att s
    rw [h0]
    exact ih (fun t ht hs => h t ht (hs.trans (List.suffix_cons c cs)))

/-- Helper: a takeWhile across an append whose front all satisfies the predicate. -/
theorem takeWhile_append_all {p : Char → Bool} (l rest : Str) (hl : ∀ c ∈ l, p c = true) :
    (l ++ rest).takeWhile p = l ++ rest.takeWhile p := by
  induction l with
  | nil => simp
  | cons c cs ih =>
    rw [List.cons_append, List.takeWhile_cons, if_pos (hl c (by simp)),
      ih (fun x hx => hl x (by simp [hx]))]
    simp

/-- Helper: a dropWhile across an append whose front all satisfies the predicate. -/
theorem dropWhile_append_all {p : Char → Bool} (l rest : Str) (hl : ∀ c ∈ l, p c = true) :
    (l ++ rest).dropWhile p = rest.dropWhile p := by
  induction l with
  | nil => simp
  | cons c cs ih =>
    simp only [List.cons_append, List.dropWhile_cons, hl c (by simp)]
    exact ih (fun x hx => hl x (by simp [hx]))

/-- Helper: takeWhile stops exactly at the first failing character. -/
theorem takeWhile_append_stop {p : Char → Bool} (l : Str) (c : Char) (rest : Str)
    (hl : ∀ x ∈ l, p x = true) (hc : p c = false) :
    (l ++ c :: rest).takeWhile p = l := by
  rw [takeWhile_append_all l (c :: rest) hl]
  simp [List.takeWhile_cons, hc]

theorem dropWhile_append_stop {p : Char → Bool} (l : Str) (c : Char) (rest : Str)
    (hl : ∀ x ∈ l, p x = true) (hc : p c = false) :
    (l ++ c :: rest).dropWhile p = c :: rest := by
  rw [dropWhile_append_all l (c :: rest) hl]
  simp [List.dropWhile_cons, hc]

/-- Matching a literal against itself followed by anything succeeds. -/
theorem dropLit_self (l rest : Str) : dropLit l (l ++ rest) = some rest := by
  induction l with
  | nil => rfl
  | cons c cs ih => simp [dropLit, ih]

/-- A successful literal match decomposes the input. -/
theorem dropLit_eq_append {p s rest : Str} (h : dropLit p s = some rest) : s = p ++ rest := by
  induction p generalizing s with
  | nil =>
    simp only [dropLit, Option.some_inj] at h
    simpa using h
  | cons c cs ih =>
    cases s with
    | nil => simp [dropLit] at h
    | cons x xs =>
      by_cases hx : x = c
      · subst hx
        simp only [dropLit, if_pos rfl] at h
        simp [ih h]
      · simp [dropLit, hx] at h

/-- A wildcard-dotted pattern matches the string it was built from, whatever
characters stand at the wildcard positions of the input continuation. -/
theorem matchPat_map_self (l rest : Str) :
    matchPat (l.map (fun c => if c = '.' then none else some c)) (l ++ rest) = some (l, rest) := by
  induction l with
  | nil => rfl
  | cons c cs ih =>
    by_cases hc : c = '.'
    · subst hc
      simp [matchPat, patOk, ih]
    · simp [matchPat, patOk, hc, ih]

/-- The character of a decimal digit value is a digit character. -/
theorem digitChar_isDigit (d : Nat) (h : d < 10) : (Char.ofNat (48 + d)).isDigit = true := by
  interval_cases d <;> decide

/-- With enough fuel, `natDigitsAux` yields a nonempty all-digit string. -/
theorem natDigitsAux_spec (fuel : Nat) : ∀ n, n < fuel →
    natDigitsAux fuel n ≠ [] ∧ ∀ c ∈ natDigitsAux fuel n, c.isDigit = true := by
  induction fuel with
  | zero => intro n hn; omega
  | succ fuel ih =>
    intro n _
    by_cases h10 : n < 10
    · unfold natDigitsAux
      rw [if_pos h10]
      exact ⟨by simp, fun c hc => by
        rw [List.mem_singleton.mp hc]
        exact digitChar_isDigit n h10⟩
    · have hdiv : n / 10 < fuel := by
        have h1 : n / 10 < n := Nat.div_lt_self (by omega) (by omega)
        omega
      obtain ⟨ih1, ih2⟩ := ih (n / 10) hdiv
      unfold natDigitsAux
      rw [if_neg h10]
      refine ⟨by simp [ih1], fun c hc => ?_⟩
      rcases List.mem_append.mp hc with hc1 | hc1
      · exact ih2 c hc1
      · rw [List.mem_singleton.mp hc1]
        exact digitChar_isDigit (n % 10) (Nat.mod_lt _ (by omega))

theorem natDigits_ne_nil (n : Nat) : natDigits n ≠ [] :=
  (natDigitsAux_spec (n + 1) n (by omega)).1

theorem natDigits_isDigit (n : Nat) : ∀ c ∈ natDigits n, c.isDigit = true :=
  (natDigitsAux_spec (n + 1) n (by omega)).2

/-- A digit character differs from any non-digit character. -/
theorem ne_of_isDigit {c : Char} (h : c.isDigit = true) (c' : Char)
    (h2 : c'.isDigit = false) : c ≠ c' := by
  intro he
  rw [he, h2] at h
  exact Bool.false_ne_true h

/-- Every character of a rendered version is a digit, a dot, or a hyphen. -/
theorem versionToStr_chars (v : Version) :
    ∀ c ∈ versionToStr v, c.isDigit = true ∨ c = '.' ∨ c = '-' := by
  intro c hc
  unfold versionToStr at hc
  have hM := natDigits_isDigit v.major c
  have hm := natDigits_isDigit v.minor c
  have hp := natDigits_isDigit v.patch c
  rcases hb : v.build with _ | b <;> rw [hb] at hc <;>
    simp only [List.mem_append, List.mem_cons, List.not_mem_nil, or_false] at hc
  · tauto
  · have hbd := natDigits_isDigit b c
    tauto

/-- A digit character is neither CR nor LF. -/
theorem isDigit_notCRLF {c : Char} (h : c.isDigit = true) : notCRLF c = true := by
  have h1 : c ≠ '\r' := ne_of_isDigit h '\r' (by decide)
  have h2 : c ≠ '\n' := ne_of_isDigit h '\n' (by decide)
  simp [notCRLF, h1, h2]

/-- Characters of a rendered version are never CR or LF. -/
theorem versionToStr_notCRLF (v : Version) : ∀ c ∈ versionToStr v, notCRLF c = true := by
  intro c hc
  rcases versionToStr_chars v c hc with h | h | h
  · exact isDigit_notCRLF h
  · rw [h]; decide
  · rw [h]; decide

/-- The version matcher fails on a non-digit head. -/
theorem versionAttempt_cons_none {c : Char} (cs : Str) (hc : c.isDigit = false) :
    versionAttempt (c :: cs) = none := by
  have hd1 : (c :: cs).takeWhile Char.isDigit = [] := by
    rw [List.takeWhile_cons, if_neg (by simp [hc])]
  have h1 : munchNum (c :: cs) = none := by
    unfold munchNum
    rw [hd1]
    rfl
  unfold versionAttempt versionMunch versionCore
  rw [h1]
  rfl

/-- Safe characters are not CR or LF. -/
theorem safeChar_notCRLF {c : Char} (h : SafeChar c = true) : notCRLF c = true := by
  by_cases h1 : c = '\r'
  · subst h1; exact absurd h (by decide)
  by_cases h2 : c = '\n'
  · subst h2; exact absurd h (by decide)
  simp [notCRLF, h1, h2]

/-- Scheme matcher on the canonical https prefix. -/
theorem schemeMunch_https (x : Str) : schemeMunch (str "https://" ++ x) = some x := rfl

/-- Host matcher on the canonical github.com host. -/
theorem hostMunch_github (x : Str) : hostMunch (str "github.com" ++ x) = some x := by
  unfold hostMunch
  rw [show wildDots "github.com" =
      (str "github.com").map (fun c => if c = '.' then none else some c) from rfl,
    matchPat_map_self (str "github.com") x]

/-- Helper: a nonempty list of naturals has a maximum that belongs to it. -/
theorem max?_isSome_of_mem {l : List Nat} {a : Nat} (h : a ∈ l) :
    ∃ m, l.max? = some m ∧ m ∈ l := by
  cases hm : l.max? with
  | none =>
    rw [List.max?_eq_none_iff] at hm
    subst hm
    simp at h
  | some m => exact ⟨m, rfl, List.max?_mem (fun x y => max_choice x y) hm⟩

/-- The URL pattern matches at the start of a canonical URL, whatever tail
follows the numeric identifier. -/
theorem urlNumberAt_exists (segs : List Str) (seg o r : Str) (n : Nat) (tail : Str)
    (hseg : seg ∈ segs)
    (ho : ∀ c ∈ o, notCRLF c = true) (hr : ∀ c ∈ r, notCRLF c = true)
    (hs : ∀ c ∈ seg, notCRLF c = true) :
    ∃ k, urlNumberAt segs
      (str "https://github.com/" ++ (o ++ '/' :: (r ++ (seg ++ (natDigits n ++ tail))))) = some k := by
  have hstep : urlNumberAt segs
      (str "https://github.com/" ++ (o ++ '/' :: (r ++ (seg ++ (natDigits n ++ tail))))) =
      urlNumberInLine segs ((o ++ '/' :: (r ++ (seg ++ (natDigits n ++ tail)))).takeWhile notCRLF) := rfl
  rw [hstep]
  have hdig : ∀ c ∈ natDigits n, notCRLF c = true :=
    fun c hc => isDigit_notCRLF (natDigits_isDigit n c hc)
  have hL : (o ++ '/' :: (r ++ (seg ++ (natDigits n ++ tail)))).takeWhile notCRLF =
      o ++ '/' :: (r ++ (seg ++ (natDigits n ++ tail.takeWhile notCRLF))) := by
    rw [takeWhile_append_all o _ ho, List.takeWhile_cons]
    simp only [show notCRLF '/' = true from rfl, if_pos]
    rw [takeWhile_append_all r _ hr, takeWhile_append_all seg _ hs,
      takeWhile_append_all (natDigits n) _ hdig]
  rw [hL]
  set T : Str := tail.takeWhile notCRLF with hT
  set l : Str := o ++ '/' :: (r ++ (seg ++ (natDigits n ++ T))) with hl
  -- the explicit witnesses for the two greedy splits
  have hb0 : l = (o ++ '/' :: r) ++ (seg ++ (natDigits n ++ T)) := by
    simp [hl, List.append_assoc]
  have hdrop : l.drop (o ++ '/' :: r).length = seg ++ (natDigits n ++ T) := by
    rw [hb0, List.drop_left]
  have hlen : (o ++ '/' :: r).length < l.length + 1 := by
    rw [hb0]
    have : 0 < (seg ++ (natDigits n ++ T)).length + 1 := by omega
    simp
    omega
  have hcand : candidatesB segs l (o ++ '/' :: r).length = true := by
    unfold candidatesB
    rw [List.any_eq_true]
    refine ⟨seg, hseg, ?_⟩
    unfold segDigitAt
    rw [hdrop, dropLit_self]
    obtain ⟨c0, D', hD⟩ := List.exists_cons_of_ne_nil (natDigits_ne_nil n)
    rw [hD]
    simp only [List.cons_append]
    exact natDigits_isDigit n c0 (by rw [hD]; simp)
  have hget : l[o.length]? = some '/' := by
    rw [hl, List.getElem?_append_right (Nat.le_refl _)]
    simp
  have haltb : o.length < (o ++ '/' :: r).length := by simp
  -- membership of the witness in the bestA filter
  have hmemA : o.length ∈ (List.range (l.length + 1)).filter
      (fun a => decide (l[a]? = some '/') &&
        ((List.range (l.length + 1)).filter (fun b => decide (a < b) && candidatesB segs l b)).length ≠ 0) := by
    rw [List.mem_filter]
    constructor
    · rw [List.mem_range]
      have : o.length < (o ++ '/' :: r).length := haltb
      omega
    · have hmemB : (o ++ '/' :: r).length ∈ (List.range (l.length + 1)).filter
          (fun b => decide (o.length < b) && candidatesB segs l b) := by
        rw [List.mem_filter]
        refine ⟨List.mem_range.mpr hlen, ?_⟩
        rw [Bool.and_eq_true]
        exact ⟨decide_eq_true haltb, hcand⟩
      have hne : ((List.range (l.length + 1)).filter
          (fun b => decide (o.length < b) && candidatesB segs l b)).length ≠ 0 := by
        intro h0
        rw [List.length_eq_zero] at h0
        rw [h0] at hmemB
        simp at hmemB
      simp [hget, hne]
  obtain ⟨a', hA, hAmem⟩ := max?_isSome_of_mem hmemA
  rw [List.mem_filter] at hAmem
  obtain ⟨-, hApred⟩ := hAmem
  rw [Bool.and_eq_true] at hApred
  obtain ⟨hA1, hA2⟩ := hApred
  have hBne : ((List.range (l.length + 1)).filter
      (fun b => decide (a' < b) && candidatesB segs l b)) ≠ [] := by
    intro h0
    rw [decide_eq_true_eq] at hA2
    exact hA2 (by rw [h0]; rfl)
  obtain ⟨b0, hb0mem⟩ := List.exists_mem_of_ne_nil _ hBne
  obtain ⟨b', hB, hBmem⟩ := max?_isSome_of_mem hb0mem
  rw [List.mem_filter, Bool.and_eq_true] at hBmem
  obtain ⟨-, -, hBcand⟩ := hBmem
  -- the chosen offset admits a segment match, so the capture succeeds
  unfold candidatesB at hBcand
  rw [List.any_eq_true] at hBcand
  have hfind : ∃ sf, segs.find? (fun sg => segDigitAt sg l b') = some sf := by
    obtain ⟨sx, hsx, hsxp⟩ := hBcand
    cases hf : segs.find? (fun sg => segDigitAt sg l b') with
    | some sf => exact ⟨sf, rfl⟩
    | none =>
      have := List.find?_eq_none.mp hf sx hsx
      exact absurd hsxp this
  obtain ⟨sf, hf⟩ := hfind
  have hsfp : segDigitAt sf l b' = true := by
    have h1 := List.find?_some hf
    simpa using h1
  unfold segDigitAt at hsfp
  rcases hdl : dropLit sf (l.drop b') with _ | rest2
  · rw [hdl] at hsfp; simp at hsfp
  · rcases rest2 with _ | ⟨c2, cs2⟩
    · rw [hdl] at hsfp; simp at hsfp
    · refine ⟨parseNatDigits ((c2 :: cs2).takeWhile Char.isDigit), ?_⟩
      unfold urlNumberInLine bestA bestB capAt
      simp only [hA, hB, hf, hdl]

/-- A canonical URL is matchable with any continuation. -/
theorem canonURL_itemMatchable {u : Str} (h : CanonURLFor itemSegs u) : ItemMatchable u := by
  obtain ⟨o, r, seg, n, hseg, hu, -, -, ho, hr, hsc⟩ := h
  have hoc : ∀ c ∈ o, notCRLF c = true := fun c hc => safeChar_notCRLF (ho c hc)
  have hrc : ∀ c ∈ r, notCRLF c = true := fun c hc => safeChar_notCRLF (hr c hc)
  constructor
  · intro c hc
    rw [hu] at hc
    rcases List.mem_append.mp hc with h1 | h1
    · exact (by decide : ∀ x ∈ str "https://github.com/", notCRLF x = true) c h1
    rcases List.mem_append.mp h1 with h2 | h2
    · exact hoc c h2
    rcases List.mem_cons.mp h2 with rfl | h3
    · decide
    rcases List.mem_append.mp h3 with h4 | h4
    · exact hrc c h4
    rcases List.mem_append.mp h4 with h5 | h5
    · exact hsc c h5
    · exact isDigit_notCRLF (natDigits_isDigit n c h5)
  · intro tail
    have hre : u ++ tail =
        str "https://github.com/" ++ (o ++ '/' :: (r ++ (seg ++ (natDigits n ++ tail)))) := by
      rw [hu]
      simp [List.append_assoc]
    rw [hre]
    exact urlNumberAt_exists itemSegs seg o r n tail hseg hoc hrc hsc

/-- Attempting the checklist-item pattern on a rendered line captures the whole
line remainder after the checkbox. -/
theorem itemAttempt_line (checked : Bool) (u rest2 : Str) (hm : ItemMatchable u) :
    itemAttempt (renderLine checked u ++ rest2) = some (u, '\r' :: '\n' :: rest2) := by
  obtain ⟨hu, hk2⟩ := hm
  obtain ⟨k, hk⟩ := hk2 ('\r' :: '\n' :: rest2)
  have htw := takeWhile_append_stop u '\r' ('\n' :: rest2) hu (by decide)
  have hdw := dropWhile_append_stop u '\r' ('\n' :: rest2) hu (by decide)
  cases checked
  · have hshape : renderLine false u ++ rest2 =
        '-' :: ' ' :: '[' :: ' ' :: ']' :: ' ' :: (u ++ '\r' :: '\n' :: rest2) := by
      simp [renderLine, str, List.append_assoc]
    rw [hshape]
    show (match urlNumberAt itemSegs (u ++ '\r' :: '\n' :: rest2) with
      | some _ => some ((u ++ '\r' :: '\n' :: rest2).takeWhile notCRLF,
          (u ++ '\r' :: '\n' :: rest2).dropWhile notCRLF)
      | none => none) = some (u, '\r' :: '\n' :: rest2)
    rw [hk, htw, hdw]
  · have hshape : renderLine true u ++ rest2 =
        '-' :: ' ' :: '[' :: 'x' :: ']' :: ' ' :: (u ++ '\r' :: '\n' :: rest2) := by
      simp [renderLine, str, List.append_assoc]
    rw [hshape]
    show (match urlNumberAt itemSegs (u ++ '\r' :: '\n' :: rest2) with
      | some _ => some ((u ++ '\r' :: '\n' :: rest2).takeWhile notCRLF,
          (u ++ '\r' :: '\n' :: rest2).dropWhile notCRLF)
      | none => none) = some (u, '\r' :: '\n' :: rest2)
    rw [hk, htw, hdw]

/-- Length of a rendered checklist line. -/
theorem renderLine_length (checked : Bool) (u : Str) :
    (renderLine checked u).length = u.length + 8 := by
  cases checked <;> simp [renderLine, str]

/-- The item scanner on a block of rendered checklist lines returns exactly the
line URLs, in order. -/
theorem checklistScanAux_lines (items : List (Bool × Str))
    (hitems : ∀ i ∈ items, ItemMatchable i.2) :
    ∀ fuel, ((items.map (fun i => renderLine i.1 i.2)).flatten).length ≤ fuel →
      checklistScanAux fuel ((items.map (fun i => renderLine i.1 i.2)).flatten) =
        items.map (fun i => i.2) := by
  induction items with
  | nil =>
    intro fuel _
    cases fuel <;> rfl
  | cons i tl ih =>
    intro fuel hfuel
    obtain ⟨checked, u⟩ := i
    have hmi : ItemMatchable u := hitems (checked, u) (by simp)
    simp only [List.map_cons, List.flatten_cons] at hfuel ⊢
    have hlen : (renderLine checked u).length = u.length + 8 := renderLine_length checked u
    have hlenflat : (renderLine checked u ++ (tl.map (fun i => renderLine i.1 i.2)).flatten).length =
        u.length + 8 + ((tl.map (fun i => renderLine i.1 i.2)).flatten).length := by
      rw [List.length_append, hlen]
    have hfuel8 : u.length + 8 + ((tl.map (fun i => renderLine i.1 i.2)).flatten).length ≤ fuel := by
      omega
    rcases fuel with _ | fuel1
    · omega
    have hshape : renderLine checked u ++ (tl.map (fun i => renderLine i.1 i.2)).flatten =
        '-' :: ' ' :: '[' :: (if checked then 'x' else ' ') :: ']' :: ' ' ::
          (u ++ '\r' :: '\n' :: (tl.map (fun i => renderLine i.1 i.2)).flatten) := by
      cases checked <;> simp [renderLine, str, List.append_assoc]
    rw [hshape]
    show checklistScanAux (fuel1 + 1)
        ('-' :: ' ' :: '[' :: (if checked then 'x' else ' ') :: ']' :: ' ' ::
          (u ++ '\r' :: '\n' :: (tl.map (fun i => renderLine i.1 i.2)).flatten)) =
      u :: tl.map (fun i => i.2)
    have hatt := itemAttempt_line checked u ((tl.map (fun i => renderLine i.1 i.2)).flatten) hmi
    rw [hshape] at hatt
    unfold checklistScanAux
    rw [hatt]
    rcases fuel1 with _ | fuel2
    · omega
    rcases fuel2 with _ | fuel3b
    · omega
    show u :: checklistScanAux fuel3b ((tl.map (fun i => renderLine i.1 i.2)).flatten) = _
    rw [ih (fun j hj => hitems j (by simp [hj])) fuel3b (by omega)]

/-- C10: a decoded checklist entry is the whole remainder of its line starting
at the URL: the trailing wildcard inside the capture group keeps any text that
follows the URL on the same line (up to the CR), so the stored entry is the
URL together with that trailing text. -/
theorem decode_entry_keeps_trailing_text (checked : Bool) (n : Nat) (t : Str)
    (ht : ∀ c ∈ t, notCRLF c = true) :
    checklistScan (renderLine checked (str "https://github.com/Org/Repo/pull/" ++ (natDigits n ++ t))) =
      [str "https://github.com/Org/Repo/pull/" ++ (natDigits n ++ t)] := by
  have hm : ItemMatchable (str "https://github.com/Org/Repo/pull/" ++ (natDigits n ++ t)) := by
    constructor
    · intro c hc
      rcases List.mem_append.mp hc with h1 | h1
      · exact (by decide : ∀ x ∈ str "https://github.com/Org/Repo/pull/", notCRLF x = true) c h1
      rcases List.mem_append.mp h1 with h2 | h2
      · exact isDigit_notCRLF (natDigits_isDigit n c h2)
      · exact ht c h2
    · intro tail
      have hre : (str "https://github.com/Org/Repo/pull/" ++ (natDigits n ++ t)) ++ tail =
          str "https://github.com/" ++
            (str "Org" ++ '/' :: (str "Repo" ++ (str "/pull/" ++ (natDigits n ++ (t ++ tail))))) := by
        simp [str, List.append_assoc]
      rw [hre]
      exact urlNumberAt_exists itemSegs (str "/pull/") (str "Org") (str "Repo") n (t ++ tail)
        (by simp [itemSegs]) (by decide) (by decide) (by decide)
  have h := checklistScanAux_lines [(checked, str "https://github.com/Org/Repo/pull/" ++ (natDigits n ++ t))]
    (by intro i hi; rw [List.mem_singleton.mp hi]; exact hm)
    (((([(checked, str "https://github.com/Org/Repo/pull/" ++ (natDigits n ++ t))]).map
      (fun i => renderLine i.1 i.2)).flatten).length) (Nat.le_refl _)
  unfold checklistScan
  simpa using h

/-- C10 witness: entry 482 with the trailing text kept, at a concrete input. -/
theorem decode_entry_keeps_trailing_text_witness :
    checklistScan (renderLine false (str "https://github.com/Org/Repo/pull/" ++ (natDigits 482 ++ str " fixed"))) =
      [str "https://github.com/Org/Repo/pull/" ++ (natDigits 482 ++ str " fixed")] :=
  decode_entry_keeps_trailing_text false 482 (str " fixed") (by decide)

/-- C7: decode is all-or-nothing: for every issue the result is either the
single MalformedChecklist error or a complete record; no partial result
exists. -/
theorem decode_all_or_nothing (issue : IssueInput) :
    getStagingDeployCashData issue = Except.error GithubError.malformedChecklist ∨
      ∃ d : StagingDeployCashData, getStagingDeployCashData issue = Except.ok d := by
  unfold getStagingDeployCashData
  rcases versionFirstMatch issue.body with _ | tagM <;>
    rcases compareFirstMatch issue.body with _ | comp <;>
    rcases prSectionMatch issue.body with _ | prS <;>
    rcases blockerSectionMatch issue.body with _ | blS
  all_goals first
    | exact Or.inl rfl
    | exact Or.inr ⟨_, rfl⟩

/-- C2 (amended): a body without any occurrence of the `Deploy Blockers:**`
header fails to decode with the MalformedChecklist error — the section is not
optional — and a body with no digits at all (hence no semantic-version tag)
fails the same way. -/
theorem decode_missing_parts_malformed :
    (∀ issue : IssueInput, ¬ (blockerSectionPat <:+: issue.body) →
        getStagingDeployCashData issue = Except.error GithubError.malformedChecklist) ∧
      (∀ issue : IssueInput, (∀ c ∈ issue.body, c.isDigit = false) →
        getStagingDeployCashData issue = Except.error GithubError.malformedChecklist) := by
  constructor
  · intro issue h
    have hb : blockerSectionMatch issue.body = none := by
      apply scanOpt_none
      intro t ht
      unfold blockerSectionAttempt
      rcases hd : dropLit blockerSectionPat t with _ | rest
      · rfl
      · exfalso
        apply h
        obtain ⟨w, hw⟩ := ht
        exact ⟨w, rest, by rw [← hw, dropLit_eq_append hd, List.append_assoc]⟩
    unfold getStagingDeployCashData
    rw [hb]
    rcases versionFirstMatch issue.body with _ | tagM <;>
      rcases compareFirstMatch issue.body with _ | comp <;>
      rcases prSectionMatch issue.body with _ | prS <;> rfl
  · intro issue h
    have hv : versionFirstMatch issue.body = none := by
      apply scanOpt_none
      intro t ht
      rcases t with _ | ⟨c, cs⟩
      · rfl
      · exact versionAttempt_cons_none cs (h c (ht.mem (by simp)))
    unfold getStagingDeployCashData
    rw [hv]

/-- C2 witness: both failure modes at concrete bodies. -/
theorem decode_missing_parts_malformed_witness :
    getStagingDeployCashData ⟨[], [], [], str "**Release Version:** 1.0.0\r\nno blockers\r\n"⟩ =
        Except.error GithubError.malformedChecklist ∧
      getStagingDeployCashData ⟨[], [], [], str "hello world\r\n"⟩ =
        Except.error GithubError.malformedChecklist :=
  ⟨decode_missing_parts_malformed.1 ⟨[], [], [], str "**Release Version:** 1.0.0\r\nno blockers\r\n"⟩ (by decide),
    decode_missing_parts_malformed.2 ⟨[], [], [], str "hello world\r\n"⟩ (by decide)⟩

set_option maxRecDepth 20000 in
/-- C4 counterexample: a body produced by the encoder from a nonempty PR list
and an empty deploy-blocker list does not decode back: without the blocker
section there is no blank line after the PR section, so the PR-section regex
cannot close its group and decode collapses to the MalformedChecklist error. -/
theorem encode_decode_roundtrip_counterexample :
    generateStagingDeployCashBody (Except.ok [⟨1, 0, 0, none⟩]) ⟨1, 0, 1, none⟩
        [str "https://github.com/Org/Repo/pull/2"] [] [] [] = EncodeOutcome.body emptyBlockerBody ∧
      getStagingDeployCashData ⟨[], [], [], emptyBlockerBody⟩ =
        Except.error GithubError.malformedChecklist := by
  constructor
  · decide
  · decide

/-- C2 counterexample: a body with a valid tag, comparison URL and PR section
but no `Deploy Blockers:**` section decodes to the MalformedChecklist error,
not to a record with an empty deployBlockers sequence. -/
theorem decode_missing_blockers_counterexample :
    getStagingDeployCashData ⟨[], [], [], noBlockerBody⟩ =
      Except.error GithubError.malformedChecklist := by
  decide


/-- A nonempty digit run followed by a non-digit is munched exactly. -/
theorem munchNum_exact (d : Str) (c : Char) (rest : Str)
    (hd : ∀ x ∈ d, x.isDigit = true) (hne : d ≠ []) (hc : c.isDigit = false) :
    munchNum (d ++ c :: rest) = some (d, c :: rest) := by
  unfold munchNum
  rw [takeWhile_append_stop d c rest hd hc, dropWhile_append_stop d c rest hd hc,
    if_neg (by simp [hne])]

/-- The mandatory core of the version regex consumes exactly the three digit
runs. -/
theorem versionCore_exact (M m p : Nat) (c : Char) (rest : Str) (hc : c.isDigit = false) :
    versionCore (natDigits M ++ '.' :: (natDigits m ++ '.' :: (natDigits p ++ c :: rest))) =
      some (natDigits M ++ '.' :: natDigits m ++ '.' :: natDigits p, c :: rest) := by
  have e1 := munchNum_exact (natDigits M) '.' (natDigits m ++ '.' :: (natDigits p ++ c :: rest))
    (natDigits_isDigit M) (natDigits_ne_nil M) (by decide)
  have e2 := munchNum_exact (natDigits m) '.' (natDigits p ++ c :: rest)
    (natDigits_isDigit m) (natDigits_ne_nil m) (by decide)
  have e3 := munchNum_exact (natDigits p) c rest (natDigits_isDigit p) (natDigits_ne_nil p) hc
  simp only [versionCore, e1, munchDot, e2, e3]

/-- The version matcher consumes exactly a rendered version when the next
character is neither a digit nor a hyphen. -/
theorem versionMunch_exact (v : Version) (c : Char) (rest : Str)
    (hc : c.isDigit = false) (hc2 : c ≠ '-') :
    versionMunch (versionToStr v ++ c :: rest) = some (versionToStr v, c :: rest) := by
  rcases hb : v.build with _ | b
  · have hshape : versionToStr v ++ c :: rest =
        natDigits v.major ++ '.' :: (natDigits v.minor ++ '.' :: (natDigits v.patch ++ c :: rest)) := by
      unfold versionToStr
      rw [hb]
      simp [List.append_assoc]
    have hv : versionToStr v = natDigits v.major ++ '.' :: natDigits v.minor ++ '.' :: natDigits v.patch := by
      unfold versionToStr
      rw [hb]
      simp
    rw [hshape]
    simp only [versionMunch, versionCore_exact v.major v.minor v.patch c rest hc]
    split
    · rename_i r4 heq
      injection heq with h1 h2
      exact absurd h1 hc2
    · rw [hv]
  · have hshape : versionToStr v ++ c :: rest =
        natDigits v.major ++ '.' :: (natDigits v.minor ++ '.' ::
          (natDigits v.patch ++ '-' :: (natDigits b ++ c :: rest))) := by
      unfold versionToStr
      rw [hb]
      simp [List.append_assoc]
    have hv : versionToStr v = (natDigits v.major ++ '.' :: natDigits v.minor ++ '.' :: natDigits v.patch)
        ++ '-' :: natDigits b := by
      unfold versionToStr
      rw [hb]
    have e4 := munchNum_exact (natDigits b) c rest (natDigits_isDigit b) (natDigits_ne_nil b) hc
    rw [hshape]
    simp only [versionMunch, versionCore_exact v.major v.minor v.patch '-'
      (natDigits b ++ c :: rest) (by decide), e4]
    rw [hv]

/-- Membership from an index lookup. -/
theorem mem_of_getElemOpt {l : Str} {a : Char} {i : Nat} (h : l[i]? = some a) : a ∈ l := by
  obtain ⟨hlt, he⟩ := List.getElem?_eq_some.mp h
  exact he ▸ List.getElem_mem hlt

/-- A literal match fails when one position disagrees. -/
theorem dropLit_none_of_get (p u : Str) (k : Nat) (a : Char)
    (hp : p[k]? = some a) (hu : u[k]? ≠ some a) : dropLit p u = none := by
  induction k generalizing p u with
  | zero =>
    rcases p with _ | ⟨pc, ps⟩
    · simp at hp
    rcases u with _ | ⟨uc, us⟩
    · rfl
    · simp only [List.getElem?_cons_zero] at hp hu
      unfold dropLit
      rw [if_neg]
      intro he
      exact hu (by rw [he, hp])
  | succ k ih =>
    rcases p with _ | ⟨pc, ps⟩
    · simp at hp
    rcases u with _ | ⟨uc, us⟩
    · rfl
    · simp only [List.getElem?_cons_succ] at hp hu
      unfold dropLit
      by_cases he : uc = pc
      · rw [if_pos he]
        exact ih ps us hp hu
      · rw [if_neg he]

/-- A two-position disagreement also kills a literal match. -/
theorem dropLit_none_of_pair (p u : Str) (k : Nat) (c₁ c₂ : Char)
    (hp1 : p[k]? = some c₁) (hp2 : p[k + 1]? = some c₂)
    (hu : ¬ (u[k]? = some c₁ ∧ u[k + 1]? = some c₂)) : dropLit p u = none := by
  by_cases h1 : u[k]? = some c₁
  · exact dropLit_none_of_get p u (k + 1) c₂ hp2 (fun h2 => hu ⟨h1, h2⟩)
  · exact dropLit_none_of_get p u k c₁ hp1 h1

/-- A wildcard pattern match fails when one literal position disagrees. -/
theorem matchPat_none_of_get (ps : List (Option Char)) (u : Str) (k : Nat) (a : Char)
    (hp : ps[k]? = some (some a)) (hu : u[k]? ≠ some a) : matchPat ps u = none := by
  induction k generalizing ps u with
  | zero =>
    rcases ps with _ | ⟨pc, ps'⟩
    · simp at hp
    rcases u with _ | ⟨uc, us⟩
    · rfl
    · simp only [List.getElem?_cons_zero] at hp hu
      injection hp with hpc
      subst hpc
      unfold matchPat
      rw [if_neg]
      simp only [patOk, decide_eq_true_eq]
      intro he
      exact hu (by rw [he])
  | succ k ih =>
    rcases ps with _ | ⟨pc, ps'⟩
    · simp at hp
    rcases u with _ | ⟨uc, us⟩
    · rfl
    · simp only [List.getElem?_cons_succ] at hp hu
      unfold matchPat
      by_cases he : patOk pc uc = true
      · rw [if_pos he, ih ps' us hp hu]
        rfl
      · rw [if_neg he]

/-- There is no pair occurrence in the empty string. -/
theorem pairFree_nil (c₁ c₂ : Char) : PairFree c₁ c₂ [] := by
  intro i h
  simp at h

/-- Absence of the first character gives pair-freeness. -/
theorem pairFree_of_not_mem₁ {c₁ c₂ : Char} {l : Str} (h : c₁ ∉ l) : PairFree c₁ c₂ l := by
  intro i hi
  exact h (mem_of_getElemOpt hi.1)

/-- Absence of the second character gives pair-freeness. -/
theorem pairFree_of_not_mem₂ {c₁ c₂ : Char} {l : Str} (h : c₂ ∉ l) : PairFree c₁ c₂ l := by
  intro i hi
  exact h (mem_of_getElemOpt hi.2)

/-- Pair-freeness from the absence of the two-character infix. -/
theorem pairFree_of_no_occurrence {c₁ c₂ : Char} {l : Str} (h : ¬ ([c₁, c₂] <:+: l)) :
    PairFree c₁ c₂ l := by
  intro i hi
  apply h
  obtain ⟨hlt1, he1⟩ := List.getElem?_eq_some.mp hi.1
  obtain ⟨hlt2, he2⟩ := List.getElem?_eq_some.mp hi.2
  refine ⟨l.take i, l.drop (i + 2), ?_⟩
  have hd1 : l.drop i = c₁ :: l.drop (i + 1) := by
    rw [List.drop_eq_getElem_cons hlt1, he1]
  have hd2 : l.drop (i + 1) = c₂ :: l.drop (i + 2) := by
    rw [List.drop_eq_getElem_cons hlt2, he2]
  conv_rhs => rw [← List.take_append_drop i l, hd1, hd2]
  simp

/-- Pair-freeness is inherited by suffixes. -/
theorem pairFree_suffix {c₁ c₂ : Char} {t A : Str} (hs : t <:+ A) (hA : PairFree c₁ c₂ A) :
    PairFree c₁ c₂ t := by
  obtain ⟨w, hw⟩ := hs
  intro i hi
  apply hA (w.length + i)
  subst hw
  constructor
  · rw [List.getElem?_append_right (by omega)]
    simpa using hi.1
  · rw [show w.length + i + 1 = w.length + (i + 1) by omega,
      List.getElem?_append_right (by omega)]
    simpa using hi.2

/-- Pair-freeness composes across an append when the second part does not
start with the second character. -/
theorem pairFree_append {c₁ c₂ : Char} {x y : Str} (hx : PairFree c₁ c₂ x)
    (hy : PairFree c₁ c₂ y) (hb : y[0]? ≠ some c₂) : PairFree c₁ c₂ (x ++ y) := by
  intro i hi
  obtain ⟨h1, h2⟩ := hi
  by_cases hcase : i + 1 < x.length
  · rw [List.getElem?_append_left (by omega)] at h1
    rw [List.getElem?_append_left hcase] at h2
    exact hx i ⟨h1, h2⟩
  · by_cases hcase2 : i < x.length
    · rw [List.getElem?_append_right (by omega)] at h2
      have : i + 1 - x.length = 0 := by omega
      rw [this] at h2
      exact hb h2
    · rw [List.getElem?_append_right (by omega)] at h1
      rw [List.getElem?_append_right (by omega)] at h2
      have : i + 1 - x.length = (i - x.length) + 1 := by omega
      rw [this] at h2
      exact hy (i - x.length) ⟨h1, h2⟩

/-- Pair-freeness of a flattening of nonempty blocks, none starting with the
second character. -/
theorem pairFree_flatten {c₁ c₂ : Char} (ls : List Str)
    (h : ∀ l ∈ ls, l ≠ [] ∧ l[0]? ≠ some c₂ ∧ PairFree c₁ c₂ l) :
    PairFree c₁ c₂ ls.flatten := by
  induction ls with
  | nil => simpa using pairFree_nil c₁ c₂
  | cons l ls ih =>
    rw [List.flatten_cons]
    obtain ⟨hne, hhead, hpf⟩ := h l (by simp)
    refine pairFree_append hpf (ih (fun j hj => h j (by simp [hj]))) ?_
    rcases ls with _ | ⟨l2, ls'⟩
    · simp
    · rw [List.flatten_cons]
      obtain ⟨hne2, hhead2, -⟩ := h l2 (by simp)
      rcases l2 with _ | ⟨c0, l2'⟩
      · exact absurd rfl hne2
      · simpa using hhead2

/-- The compare matcher requires a literal `t` at index 1. -/
theorem compareAttempt_none_of_get1 (u : Str) (hu : u[1]? ≠ some 't') :
    compareAttempt u = none := by
  have hp : comparePat[1]? = some (some 't') := by decide
  unfold compareAttempt
  rw [matchPat_none_of_get comparePat u 1 't' hp hu]

/-- The version matcher fails throughout a digit-free region. -/
theorem versionAttempt_fail_region (A s : Str) (hA : ∀ c ∈ A, c.isDigit = false) :
    ∀ t, t ≠ [] → t <:+ A → versionAttempt (t ++ s) = none := by
  intro t ht hsuf
  rcases t with _ | ⟨c, t'⟩
  · exact absurd rfl ht
  · exact versionAttempt_cons_none _ (hA c (hsuf.mem (by simp)))

/-- The compare matcher fails throughout a region without the letter `t`,
provided what follows does not put a `t` in second position either. -/
theorem compareAttempt_fail_region (A s : Str) (hA : ∀ c ∈ A, c ≠ 't') (hs : s[0]? ≠ some 't') :
    ∀ t, t ≠ [] → t <:+ A → compareAttempt (t ++ s) = none := by
  intro t ht hsuf
  apply compareAttempt_none_of_get1
  rcases t with _ | ⟨c1, t'⟩
  · exact absurd rfl ht
  rcases t' with _ | ⟨c2, t''⟩
  · simpa using hs
  · have hc2 : c2 ∈ A := hsuf.mem (by simp)
    simp [hA c2 hc2]

/-- The PR-section matcher fails throughout a `q`-free region placed before
the header occurrence. -/
theorem prSectionAttempt_fail_region (A rest : Str) (hA : 'q' ∉ A) :
    ∀ t, t ≠ [] → t <:+ A → prSectionAttempt (t ++ (prSectionPat ++ rest)) = none := by
  intro t ht hsuf
  have hq : prSectionPat[7]? = some 'q' := by decide
  have hd : dropLit prSectionPat (t ++ (prSectionPat ++ rest)) = none := by
    apply dropLit_none_of_get _ _ 7 'q' hq
    by_cases hlt : 7 < t.length
    · rw [List.getElem?_append_left hlt]
      rcases h7 : t[7]? with _ | c
      · simp
      · have hc : c ∈ A := hsuf.mem (mem_of_getElemOpt h7)
        intro he
        injection he with he2
        subst he2
        exact hA hc
    · have htl : 1 ≤ t.length := List.length_pos.mpr ht
      have hplen : prSectionPat.length = 18 := by decide
      rw [List.getElem?_append_right (by omega),
        List.getElem?_append_left (by omega)]
      have hfact : ∀ j, j < 7 → prSectionPat[j]? ≠ some 'q' := by decide
      exact hfact (7 - t.length) (by omega)
  unfold prSectionAttempt
  rw [hd]

/-- The blocker-section matcher fails throughout a region free of the pair
`y` followed by a space. -/
theorem blockerSectionAttempt_fail_region (A rest : Str) (hA : PairFree 'y' ' ' A) :
    ∀ t, t ≠ [] → t <:+ A → blockerSectionAttempt (t ++ (blockerSectionPat ++ rest)) = none := by
  intro t ht hsuf
  have hp1 : blockerSectionPat[5]? = some 'y' := by decide
  have hp2 : blockerSectionPat[6]? = some ' ' := by decide
  have htl : 1 ≤ t.length := List.length_pos.mpr ht
  have hd : dropLit blockerSectionPat (t ++ (blockerSectionPat ++ rest)) = none := by
    apply dropLit_none_of_pair _ _ 5 'y' ' ' hp1 hp2
    rintro ⟨h5, h6⟩
    by_cases hc6 : 6 < t.length
    · rw [List.getElem?_append_left (by omega)] at h5
      rw [List.getElem?_append_left (by omega)] at h6
      exact (pairFree_suffix hsuf hA) 5 ⟨h5, h6⟩
    · by_cases hc5 : t.length = 6
      · rw [List.getElem?_append_right (by omega)] at h6
        rw [List.getElem?_append_left (show 6 - t.length < blockerSectionPat.length by rw [hc5]; decide)] at h6
        rw [hc5] at h6
        simp only [Nat.sub_self] at h6
        exact absurd h6 (by decide)
      · have hplen : blockerSectionPat.length = 20 := by decide
        have h5b : (t ++ (blockerSectionPat ++ rest))[5]? = blockerSectionPat[5 - t.length]? := by
          rw [List.getElem?_append_right (by omega),
            List.getElem?_append_left (by omega)]
        have h6b : (t ++ (blockerSectionPat ++ rest))[6]? = blockerSectionPat[6 - t.length]? := by
          rw [List.getElem?_append_right (by omega),
            List.getElem?_append_left (by omega)]
        rw [h5b] at h5
        rw [h6b] at h6
        have hfact : ∀ j, j < 5 → ¬ (blockerSectionPat[j]? = some 'y' ∧
            blockerSectionPat[j + 1]? = some ' ') := by decide
        have hj : 6 - t.length = (5 - t.length) + 1 := by omega
        rw [hj] at h6
        exact hfact (5 - t.length) (by omega) ⟨h5, h6⟩
  unfold blockerSectionAttempt
  rw [hd]

/-- The compare matcher consumes exactly a comparison URL built from two
rendered versions, whatever non-version character follows. -/
theorem compareAttempt_exact (prev anchor : Version) (c : Char) (rest : Str)
    (hc : c.isDigit = false) (hc2 : c ≠ '-') :
    compareAttempt (getComparisonURL (versionToStr prev) (versionToStr anchor) ++ c :: rest) =
      some (getComparisonURL (versionToStr prev) (versionToStr anchor)) := by
  have hshape : getComparisonURL (versionToStr prev) (versionToStr anchor) ++ c :: rest =
      str "https://github.com/Expensify/Expensify.cash/compare/" ++
        (versionToStr prev ++ '.' :: '.' :: '.' :: (versionToStr anchor ++ c :: rest)) := by
    unfold getComparisonURL
    simp [str, List.append_assoc]
  have hpat : matchPat comparePat
      (str "https://github.com/Expensify/Expensify.cash/compare/" ++
        (versionToStr prev ++ '.' :: '.' :: '.' :: (versionToStr anchor ++ c :: rest))) =
      some (str "https://github.com/Expensify/Expensify.cash/compare/",
        versionToStr prev ++ '.' :: '.' :: '.' :: (versionToStr anchor ++ c :: rest)) :=
    matchPat_map_self (str "https://github.com/Expensify/Expensify.cash/compare/") _
  have hv1 : versionMunch (versionToStr prev ++ '.' :: ('.' :: '.' :: (versionToStr anchor ++ c :: rest))) =
      some (versionToStr prev, '.' :: ('.' :: '.' :: (versionToStr anchor ++ c :: rest))) :=
    versionMunch_exact prev '.' _ (by decide) (by decide)
  have hv2 := versionMunch_exact anchor c rest hc hc2
  have hdot : dropLit (str "...") ('.' :: '.' :: '.' :: (versionToStr anchor ++ c :: rest)) =
      some (versionToStr anchor ++ c :: rest) := rfl
  rw [hshape]
  simp only [compareAttempt, hpat, hv1, hdot, hv2]
  rfl

/-- A CRLF-terminated line splits off exactly. -/
theorem lineSplit_line (content rest : Str) (h : ∀ c ∈ content, notCRLF c = true) :
    lineSplit (content ++ '\r' :: '\n' :: rest) = some (content, rest) := by
  simp only [lineSplit, dropWhile_append_stop content '\r' ('\n' :: rest) h (by decide)]
  rw [takeWhile_append_stop content '\r' ('\n' :: rest) h (by decide)]

/-- The chunk scanner decomposes a flattening of CRLF-terminated lines
completely, with no leftover. -/
theorem chunksAux_lines (contents : List Str) (h : ∀ l ∈ contents, ∀ c ∈ l, notCRLF c = true) :
    ∀ fuel, ((contents.map (fun c => c ++ str "\r\n")).flatten).length ≤ fuel →
      chunksAux fuel ((contents.map (fun c => c ++ str "\r\n")).flatten) = (contents, []) := by
  induction contents with
  | nil =>
    intro fuel _
    cases fuel <;> rfl
  | cons content tl ih =>
    intro fuel hfuel
    simp only [List.map_cons, List.flatten_cons] at hfuel ⊢
    have hshape : (content ++ str "\r\n") ++ (tl.map (fun c => c ++ str "\r\n")).flatten =
        content ++ '\r' :: '\n' :: (tl.map (fun c => c ++ str "\r\n")).flatten := by
      simp [str, List.append_assoc]
    rw [hshape] at hfuel ⊢
    have hlen : (content ++ '\r' :: '\n' :: (tl.map (fun c => c ++ str "\r\n")).flatten).length =
        content.length + 2 + ((tl.map (fun c => c ++ str "\r\n")).flatten).length := by
      simp
      omega
    rcases fuel with _ | fuel1
    · omega
    have hstep : chunksAux (fuel1 + 1) (content ++ '\r' :: '\n' :: (tl.map (fun c => c ++ str "\r\n")).flatten) =
        (match chunksAux fuel1 ((tl.map (fun c => c ++ str "\r\n")).flatten) with
          | (cs, leftover) => (content :: cs, leftover)) := by
      simp only [chunksAux, lineSplit_line content _ (h content (by simp))]
    rw [hstep, ih (fun l hl => h l (by simp [hl])) fuel1 (by omega)]

/-- A block of nonempty chunks has no empty chunk. -/
theorem lastEmptyIdx_none (ys : List Str) (h : ∀ l ∈ ys, l ≠ []) : lastEmptyIdx ys = none := by
  induction ys with
  | nil => rfl
  | cons y tl ih =>
    unfold lastEmptyIdx
    rw [ih (fun l hl => h l (by simp [hl]))]
    rw [if_neg]
    simp only [List.isEmpty_iff]
    exact h y (by simp)

/-- The last empty chunk before a block of nonempty chunks sits exactly at the
end of the front block. -/
theorem lastEmptyIdx_cons (c : Str) (cs : List Str) :
    lastEmptyIdx (c :: cs) = (match lastEmptyIdx cs with
      | some j => some (j + 1)
      | none => if c.isEmpty then some 0 else none) := rfl

theorem lastEmptyIdx_spec (xs ys : List Str) (hys : ∀ l ∈ ys, l ≠ []) :
    lastEmptyIdx (xs ++ [] :: ys) = some xs.length := by
  induction xs with
  | nil =>
    rw [List.nil_append, lastEmptyIdx_cons, lastEmptyIdx_none ys hys]
    rfl
  | cons x tl ih =>
    show lastEmptyIdx (x :: (tl ++ [] :: ys)) = some (tl.length + 1)
    rw [lastEmptyIdx_cons, ih]

/-- No character of a rendered version equals the given non-digit, non-dot,
non-hyphen character. -/
theorem versionToStr_ne_char (v : Version) (a : Char) (ha1 : a.isDigit = false)
    (ha2 : a ≠ '.') (ha3 : a ≠ '-') : ∀ c ∈ versionToStr v, c ≠ a := by
  intro c hc he
  subst he
  rcases versionToStr_chars v c hc with h | h | h
  · rw [h] at ha1; cases ha1
  · exact ha2 h
  · exact ha3 h

/-- Step 1 of decoding a rendered body: the first version match is the tag. -/
theorem bodyShape_versionFirstMatch (anchor prev : Version) (prLines blockerLines : Str) :
    versionFirstMatch (bodyShape anchor prev prLines blockerLines) =
      some (versionToStr anchor) := by
  unfold bodyShape versionFirstMatch
  rw [scanOpt_append versionAttempt (str "**Release Version:** ") _
    (versionAttempt_fail_region (str "**Release Version:** ") _ (by decide))]
  apply scanOpt_pos
  show versionAttempt (versionToStr anchor ++ '\r' :: _) = _
  unfold versionAttempt
  rw [versionMunch_exact anchor '\r' _ (by decide) (by decide)]
  rfl

/-- Step 2 of decoding a rendered body: the first comparison-URL match is the
encoded comparison URL. -/
theorem bodyShape_compareFirstMatch (anchor prev : Version) (prLines blockerLines : Str) :
    compareFirstMatch (bodyShape anchor prev prLines blockerLines) =
      some (getComparisonURL (versionToStr prev) (versionToStr anchor)) := by
  have hassoc : bodyShape anchor prev prLines blockerLines =
      (str "**Release Version:** " ++ (versionToStr anchor ++ str "\r\n**Compare Changes:** ")) ++
        (getComparisonURL (versionToStr prev) (versionToStr anchor) ++
          (str "\r\n**This release contains changes from the following " ++
            (prSectionPat ++ (prLines ++ (str "\r\n**" ++ (blockerSectionPat ++ blockerLines)))))) := by
    unfold bodyShape
    simp [List.append_assoc]
  unfold compareFirstMatch
  rw [hassoc]
  rw [scanOpt_append compareAttempt _ _ (compareAttempt_fail_region _ _ ?hA ?hs)]
  case hA =>
    intro c hc
    rcases List.mem_append.mp hc with h1 | h1
    · exact (by decide : ∀ x ∈ str "**Release Version:** ", x ≠ 't') c h1
    rcases List.mem_append.mp h1 with h2 | h2
    · exact versionToStr_ne_char anchor 't' (by decide) (by decide) (by decide) c h2
    · exact (by decide : ∀ x ∈ str "\r\n**Compare Changes:** ", x ≠ 't') c h2
  case hs =>
    show (getComparisonURL (versionToStr prev) (versionToStr anchor) ++ _)[0]? ≠ some 't'
    unfold getComparisonURL
    intro hcon
    simp [str] at hcon
  apply scanOpt_pos
  show compareAttempt (getComparisonURL (versionToStr prev) (versionToStr anchor) ++ '\r' :: _) = _
  exact compareAttempt_exact prev anchor '\r' _ (by decide) (by decide)

/-- After the PR-section header, the greedy chunk group of the PR-section
regex backtracks to the last blank line: the captured group is exactly the
chunks before the empty chunk. -/
theorem prSectionAttempt_group (prContents tailContents : List Str)
    (hpr : ∀ l ∈ prContents, ∀ c ∈ l, notCRLF c = true)
    (htail : ∀ l ∈ tailContents, ∀ c ∈ l, notCRLF c = true)
    (hprne : prContents ≠ [])
    (htailne : ∀ l ∈ tailContents, l ≠ []) :
    prSectionAttempt (prSectionPat ++
        (((prContents ++ [] :: tailContents).map (fun c => c ++ str "\r\n")).flatten)) =
      some ((prContents.map (fun c => c ++ str "\r\n")).flatten) := by
  have hall : ∀ l ∈ prContents ++ [] :: tailContents, ∀ c ∈ l, notCRLF c = true := by
    intro l hl
    rcases List.mem_append.mp hl with h1 | h1
    · exact hpr l h1
    rcases List.mem_cons.mp h1 with rfl | h2
    · intro c hc; simp at hc
    · exact htail l h2
  have hch := chunksAux_lines (prContents ++ [] :: tailContents) hall
    (((prContents ++ [] :: tailContents).map (fun c => c ++ str "\r\n")).flatten).length
    (Nat.le_refl _)
  have hlen : 1 ≤ prContents.length := List.length_pos.mpr hprne
  simp only [prSectionAttempt, dropLit_self]
  simp only [prGroupOf, chunksOf, hch]
  simp only [lastEmptyIdx_spec prContents tailContents htailne]
  rw [if_pos hlen, List.take_left]

/-- After the deploy-blocker header, the chunk group of the blocker-section
regex takes every remaining CRLF-terminated line. -/
theorem blockerSectionAttempt_group (blockerContents : List Str)
    (hbl : ∀ l ∈ blockerContents, ∀ c ∈ l, notCRLF c = true)
    (hne : blockerContents ≠ []) :
    blockerSectionAttempt (blockerSectionPat ++
        ((blockerContents.map (fun c => c ++ str "\r\n")).flatten)) =
      some ((blockerContents.map (fun c => c ++ str "\r\n")).flatten) := by
  have hch := chunksAux_lines blockerContents hbl
    ((blockerContents.map (fun c => c ++ str "\r\n")).flatten).length (Nat.le_refl _)
  simp only [blockerSectionAttempt, dropLit_self]
  rcases blockerContents with _ | ⟨c0, cs0⟩
  · exact absurd rfl hne
  · simp only [blockerGroupOf, chunksOf, hch]

/-- Pair-freeness extends through a cons whose head is not the first
character. -/
theorem pairFree_cons {c₁ c₂ c : Char} {z : Str} (hc : c ≠ c₁) (hz : PairFree c₁ c₂ z) :
    PairFree c₁ c₂ (c :: z) := by
  intro i hi
  rcases i with _ | j
  · simp only [List.getElem?_cons_zero] at hi
    exact hc (by injection hi.1)
  · simp only [List.getElem?_cons_succ] at hi
    exact hz j hi

/-- Pair-freeness composes across an append when the first part does not end
with the first character. -/
theorem pairFree_append' {c₁ c₂ : Char} {x y : Str} (hx : PairFree c₁ c₂ x)
    (hy : PairFree c₁ c₂ y) (hb : x.getLast? ≠ some c₁) : PairFree c₁ c₂ (x ++ y) := by
  intro i hi
  obtain ⟨h1, h2⟩ := hi
  by_cases hcase : i + 1 < x.length
  · rw [List.getElem?_append_left (by omega)] at h1
    rw [List.getElem?_append_left hcase] at h2
    exact hx i ⟨h1, h2⟩
  · by_cases hcase2 : i < x.length
    · rw [List.getElem?_append_left hcase2] at h1
      apply hb
      rw [List.getLast?_eq_getElem?]
      have he : x.length - 1 = i := by omega
      rw [he]
      exact h1
    · rw [List.getElem?_append_right (by omega)] at h1
      rw [List.getElem?_append_right (by omega)] at h2
      have heq : i + 1 - x.length = (i - x.length) + 1 := by omega
      rw [heq] at h2
      exact hy (i - x.length) ⟨h1, h2⟩

/-- A rendered comparison URL never has the letter `y` directly before a
space. -/
theorem getComparisonURL_pairFree (prev anchor : Version) :
    PairFree 'y' ' ' (getComparisonURL (versionToStr prev) (versionToStr anchor)) := by
  have hy1 : ∀ c ∈ versionToStr prev, c ≠ 'y' :=
    versionToStr_ne_char prev 'y' (by decide) (by decide) (by decide)
  have hy2 : ∀ c ∈ versionToStr anchor, c ≠ 'y' :=
    versionToStr_ne_char anchor 'y' (by decide) (by decide) (by decide)
  have hre : getComparisonURL (versionToStr prev) (versionToStr anchor) =
      str "https://github.com/Expensify/Expensify.cash/compare/" ++
        (versionToStr prev ++ (str "..." ++ versionToStr anchor)) := by
    unfold getComparisonURL
    simp [List.append_assoc]
  rw [hre]
  refine pairFree_append' (pairFree_of_no_occurrence (by decide)) ?_ (by decide)
  refine pairFree_append (pairFree_of_not_mem₁ ?_) ?_ ?_
  · intro hc
    exact hy1 'y' hc rfl
  · refine pairFree_append' (pairFree_of_not_mem₁ (by decide)) (pairFree_of_not_mem₁ ?_) (by decide)
    intro hc
    exact hy2 'y' hc rfl
  · simp [str]

/-- A rendered checklist line with a space-free URL never has the letter `y`
directly before a space. -/
theorem renderLine_pairFree (checked : Bool) {u : Str} (h : ' ' ∉ u) :
    PairFree 'y' ' ' (renderLine checked u) := by
  unfold renderLine
  refine pairFree_append' ?_ ?_ ?_
  · cases checked
    · exact pairFree_of_not_mem₁ (by decide)
    · exact pairFree_of_not_mem₁ (by decide)
  · refine pairFree_cons (by decide) ?_
    exact pairFree_append (pairFree_of_not_mem₂ h) (pairFree_of_not_mem₁ (by decide)) (by decide)
  · cases checked <;> decide

/-- A block of rendered checklist lines with space-free URLs never has the
letter `y` directly before a space. -/
theorem prLines_pairFree (items : List (Bool × Str)) (h : ∀ i ∈ items, ' ' ∉ i.2) :
    PairFree 'y' ' ' ((items.map (fun i => renderLine i.1 i.2)).flatten) := by
  apply pairFree_flatten
  intro l hl
  obtain ⟨i, hi, rfl⟩ := List.mem_map.mp hl
  obtain ⟨checked, u⟩ := i
  refine ⟨?_, ?_, renderLine_pairFree checked (h (checked, u) hi)⟩
  · cases checked <;> simp [renderLine, str]
  · cases checked <;> simp [renderLine, str]

/-- Step 3 of decoding a rendered body: the PR-section regex anchors exactly
at the header occurrence, with whatever group its attempt yields there. -/
theorem bodyShape_prSectionMatch (anchor prev : Version) (prLines blockerLines g : Str)
    (h : prSectionAttempt (prSectionPat ++
        (prLines ++ (str "\r\n**" ++ (blockerSectionPat ++ blockerLines)))) = some g) :
    prSectionMatch (bodyShape anchor prev prLines blockerLines) = some g := by
  have hassoc : bodyShape anchor prev prLines blockerLines =
      (str "**Release Version:** " ++ (versionToStr anchor ++
        (str "\r\n**Compare Changes:** " ++
          (getComparisonURL (versionToStr prev) (versionToStr anchor) ++
            str "\r\n**This release contains changes from the following ")))) ++
        (prSectionPat ++ (prLines ++ (str "\r\n**" ++ (blockerSectionPat ++ blockerLines)))) := by
    unfold bodyShape
    simp [List.append_assoc]
  have hq : 'q' ∉ (str "**Release Version:** " ++ (versionToStr anchor ++
      (str "\r\n**Compare Changes:** " ++
        (getComparisonURL (versionToStr prev) (versionToStr anchor) ++
          str "\r\n**This release contains changes from the following ")))) := by
    intro hc
    rcases List.mem_append.mp hc with h1 | h1
    · exact (by decide : 'q' ∉ str "**Release Version:** ") h1
    rcases List.mem_append.mp h1 with h2 | h2
    · exact versionToStr_ne_char anchor 'q' (by decide) (by decide) (by decide) 'q' h2 rfl
    rcases List.mem_append.mp h2 with h3 | h3
    · exact (by decide : 'q' ∉ str "\r\n**Compare Changes:** ") h3
    rcases List.mem_append.mp h3 with h4 | h4
    · unfold getComparisonURL at h4
      rcases List.mem_append.mp h4 with h5 | h5
      · rcases List.mem_append.mp h5 with h6 | h6
        · rcases List.mem_append.mp h6 with h7 | h7
          · exact (by decide :
              'q' ∉ str "https://github.com/Expensify/Expensify.cash/compare/") h7
          · exact versionToStr_ne_char prev 'q' (by decide) (by decide) (by decide) 'q' h7 rfl
        · exact (by decide : 'q' ∉ str "...") h6
      · exact versionToStr_ne_char anchor 'q' (by decide) (by decide) (by decide) 'q' h5 rfl
    · exact (by decide :
        'q' ∉ str "\r\n**This release contains changes from the following ") h4
  unfold prSectionMatch
  rw [hassoc, scanOpt_append prSectionAttempt _ _ (prSectionAttempt_fail_region _ _ hq)]
  exact scanOpt_pos _ _ _ h

/-- Step 4 of decoding a rendered body: the deploy-blocker regex anchors
exactly at its header occurrence, provided the PR-line block never has a `y`
directly before a space. -/
theorem bodyShape_blockerSectionMatch (anchor prev : Version) (prLines blockerLines g : Str)
    (hpl : PairFree 'y' ' ' prLines)
    (h : blockerSectionAttempt (blockerSectionPat ++ blockerLines) = some g) :
    blockerSectionMatch (bodyShape anchor prev prLines blockerLines) = some g := by
  have hassoc : bodyShape anchor prev prLines blockerLines =
      (str "**Release Version:** " ++ (versionToStr anchor ++
        (str "\r\n**Compare Changes:** " ++
          (getComparisonURL (versionToStr prev) (versionToStr anchor) ++
            (str "\r\n**This release contains changes from the following " ++
              (prSectionPat ++ (prLines ++ str "\r\n**"))))))) ++
        (blockerSectionPat ++ blockerLines) := by
    unfold bodyShape
    simp [List.append_assoc]
  have hA : PairFree 'y' ' ' (str "**Release Version:** " ++ (versionToStr anchor ++
      (str "\r\n**Compare Changes:** " ++
        (getComparisonURL (versionToStr prev) (versionToStr anchor) ++
          (str "\r\n**This release contains changes from the following " ++
            (prSectionPat ++ (prLines ++ str "\r\n**"))))))) := by
    refine pairFree_append' (pairFree_of_not_mem₁ (by decide)) ?_ (by decide)
    refine pairFree_append (pairFree_of_not_mem₁ ?_) ?_ ?_
    · intro hc
      exact versionToStr_ne_char anchor 'y' (by decide) (by decide) (by decide) 'y' hc rfl
    · refine pairFree_append' (pairFree_of_not_mem₁ (by decide)) ?_ (by decide)
      refine pairFree_append (getComparisonURL_pairFree prev anchor) ?_ ?_
      · refine pairFree_append' (pairFree_of_not_mem₁ (by decide)) ?_ (by decide)
        refine pairFree_append' (pairFree_of_not_mem₁ (by decide)) ?_ (by decide)
        exact pairFree_append hpl (pairFree_of_not_mem₁ (by decide)) (by decide)
      · simp [str]
    · simp [str]
  unfold blockerSectionMatch
  rw [hassoc, scanOpt_append blockerSectionAttempt _ _ (blockerSectionAttempt_fail_region _ _ hA)]
  exact scanOpt_pos _ _ _ h

/-- Every element kept by the dedup accumulator scan was in the input. -/
theorem uniqueListAux_subset (l : List Str) : ∀ seen x, x ∈ uniqueListAux seen l → x ∈ l := by
  induction l with
  | nil =>
    intro seen x h
    simp [uniqueListAux] at h
  | cons a tl ih =>
    intro seen x h
    unfold uniqueListAux at h
    by_cases hmem : a ∈ seen
    · rw [if_pos hmem] at h
      exact List.mem_cons_of_mem a (ih seen x h)
    · rw [if_neg hmem] at h
      rcases List.mem_cons.mp h with rfl | h2
      · exact List.mem_cons_self _ _
      · exact List.mem_cons_of_mem a (ih (a :: seen) x h2)

/-- Membership transfers from the deduplicated list back to the input. -/
theorem mem_of_uniqueList {l : List Str} {x : Str} (h : x ∈ uniqueList l) : x ∈ l :=
  uniqueListAux_subset l [] x h

/-- Deduplication keeps a nonempty list nonempty. -/
theorem uniqueList_ne_nil {l : List Str} (h : l ≠ []) : uniqueList l ≠ [] := by
  rcases l with _ | ⟨a, tl⟩
  · exact absurd rfl h
  · show uniqueListAux [] (a :: tl) ≠ []
    unfold uniqueListAux
    rw [if_neg (by simp)]
    simp

/-- Membership transfers from the sorted deduplicated PR list to the input. -/
theorem mem_sortedPRListOf {l : List Str} {x : Str} (h : x ∈ sortedPRListOf l) : x ∈ l :=
  mem_of_uniqueList ((List.perm_insertionSort _ _).mem_iff.mp h)

/-- Membership transfers from the sorted deduplicated blocker list to the input. -/
theorem mem_sortedDeployBlockersOf {l : List Str} {x : Str} (h : x ∈ sortedDeployBlockersOf l) :
    x ∈ l :=
  mem_of_uniqueList ((List.perm_insertionSort _ _).mem_iff.mp h)

/-- Sorting keeps the nonempty deduplicated PR list nonempty. -/
theorem sortedPRListOf_ne_nil {l : List Str} (h : l ≠ []) : sortedPRListOf l ≠ [] := by
  intro h0
  have hp : List.Perm (sortedPRListOf l) (uniqueList l) := List.perm_insertionSort _ _
  rw [h0] at hp
  exact uniqueList_ne_nil h hp.symm.eq_nil

/-- Sorting keeps the nonempty deduplicated blocker list nonempty. -/
theorem sortedDeployBlockersOf_ne_nil {l : List Str} (h : l ≠ []) :
    sortedDeployBlockersOf l ≠ [] := by
  intro h0
  have hp : List.Perm (sortedDeployBlockersOf l) (uniqueList l) := List.perm_insertionSort _ _
  rw [h0] at hp
  exact uniqueList_ne_nil h hp.symm.eq_nil

/-- A nonempty list does not report empty. -/
theorem isEmpty_false_of_ne_nil {α : Type} {l : List α} (h : l ≠ []) : l.isEmpty = false := by
  rcases l with _ | ⟨a, tl⟩
  · exact absurd rfl h
  · rfl

/-- A safe URL-segment character is not a space. -/
theorem safeChar_ne_space {c : Char} (h : SafeChar c = true) : c ≠ ' ' := by
  intro he
  subst he
  exact absurd h (by decide)

/-- A canonical URL contains no space when its segment alternatives do not. -/
theorem canonURL_no_space {segs : List Str} {u : Str} (h : CanonURLFor segs u)
    (hsegs : ∀ seg ∈ segs, ∀ c ∈ seg, c ≠ ' ') : ' ' ∉ u := by
  obtain ⟨o, r, seg, n, hseg, hu, -, -, ho, hr, -⟩ := h
  rw [hu]
  intro hc
  rcases List.mem_append.mp hc with h1 | h1
  · exact (by decide : ' ' ∉ str "https://github.com/") h1
  rcases List.mem_append.mp h1 with h2 | h2
  · exact safeChar_ne_space (ho ' ' h2) rfl
  rcases List.mem_cons.mp h2 with he | h3
  · exact (by decide : ¬ (' ' = '/')) he
  rcases List.mem_append.mp h3 with h4 | h4
  · exact safeChar_ne_space (hr ' ' h4) rfl
  rcases List.mem_append.mp h4 with h5 | h5
  · exact hsegs seg hseg ' ' h5 rfl
  · exact absurd (natDigits_isDigit n ' ' h5) (by decide)

/-- A canonical URL shape for a sublist of segment alternatives is also one
for the full list. -/
theorem canonURL_mono {segs₁ segs₂ : List Str} {u : Str} (hs : ∀ s ∈ segs₁, s ∈ segs₂)
    (h : CanonURLFor segs₁ u) : CanonURLFor segs₂ u := by
  obtain ⟨o, r, seg, n, hseg, rest⟩ := h
  exact ⟨o, r, seg, n, hs seg hseg, rest⟩

/-- The URL-number scan succeeds on every canonical URL. -/
theorem canonURL_scan_ok {segs : List Str} {u : Str} (h : CanonURLFor segs u) :
    ∃ k, scanOpt (urlNumberAt segs) u = some k := by
  obtain ⟨o, r, seg, n, hseg, hu, -, -, ho, hr, hsc⟩ := h
  have hoc : ∀ c ∈ o, notCRLF c = true := fun c hc => safeChar_notCRLF (ho c hc)
  have hrc : ∀ c ∈ r, notCRLF c = true := fun c hc => safeChar_notCRLF (hr c hc)
  obtain ⟨k, hk⟩ := urlNumberAt_exists segs seg o r n [] hseg hoc hrc hsc
  rw [List.append_nil] at hk
  exact ⟨k, by rw [hu]; exact scanOpt_pos _ _ _ hk⟩

/-- A rendered line is its CRLF-free content followed by the CRLF. -/
theorem renderLine_eq (b : Bool) (u : Str) :
    renderLine b u = lineContent b u ++ str "\r\n" := by
  cases b <;> simp [renderLine, lineContent, str, List.append_assoc]

/-- A line content over a CR/LF-free URL is CR/LF-free. -/
theorem lineContent_notCRLF (b : Bool) (u : Str) (hu : ∀ c ∈ u, notCRLF c = true) :
    ∀ c ∈ lineContent b u, notCRLF c = true := by
  intro c hc
  unfold lineContent at hc
  rcases List.mem_append.mp hc with h1 | h1
  · cases b
    · exact (by decide : ∀ x ∈ str "- [ ]", notCRLF x = true) c h1
    · exact (by decide : ∀ x ∈ str "- [x]", notCRLF x = true) c h1
  · rcases List.mem_cons.mp h1 with rfl | h2
    · decide
    · exact hu c h2

/-- A line content is never empty. -/
theorem lineContent_ne_nil (b : Bool) (u : Str) : lineContent b u ≠ [] := by
  cases b <;> simp [lineContent, str]

/-- Composing a pairing map with a projection-consuming map. -/
theorem map_pair_comp {α : Type} (f : Str → Bool) (l : List Str) (g : Bool → Str → α) :
    ((l.map (fun u => (f u, u))).map (fun i => g i.1 i.2)) = l.map (fun u => g (f u) u) := by
  rw [List.map_map]
  rfl

/-- Rendered lines are the CRLF-suffixed line contents. -/
theorem renderLines_eq_lineContents (items : List (Bool × Str)) :
    (items.map (fun i => renderLine i.1 i.2)) =
      ((items.map (fun i => lineContent i.1 i.2)).map (fun c => c ++ str "\r\n")) := by
  rw [List.map_map]
  apply List.map_congr_left
  intro i _
  exact renderLine_eq i.1 i.2

/-- The tag match of a rendered version has no backquote to strip. -/
theorem stripTicks_versionToStr (v : Version) : stripTicks (versionToStr v) = versionToStr v := by
  unfold stripTicks
  rw [List.filter_eq_self]
  intro c hc
  have h := versionToStr_ne_char v (Char.ofNat 96) (by decide) (by decide) (by decide) c hc
  simpa using h

/-- Projecting the URL back out of the checkbox-flag pairing. -/
theorem map_pair_snd (f : Str → Bool) (l : List Str) :
    (l.map (fun u => (f u, u))).map (fun i => i.2) = l := by
  rw [List.map_map]
  exact List.map_id' l

/-- Rendered checklist lines as CRLF-suffixed line contents of the paired list. -/
theorem renderMap_eq (verified : List Str) (l : List Str) :
    l.map (fun u => renderLine (verified.contains u) u) =
      ((l.map (fun u => (verified.contains u, u))).map
        (fun i => lineContent i.1 i.2)).map (fun c => c ++ str "\r\n") := by
  rw [List.map_map, List.map_map]
  apply List.map_congr_left
  intro u _
  exact renderLine_eq (verified.contains u) u

set_option maxRecDepth 4000 in
/-- The body assembled by the encode step is the canonical nested shape the
decode regexes anchor on. -/
theorem encode_body_shape (anchor prev : Version) (prL blkL : Str) :
    str "**Release Version:** " ++ versionToStr anchor ++ str "\r\n"
      ++ str "**Compare Changes:** "
      ++ getComparisonURL (versionToStr prev) (versionToStr anchor) ++ str "\r\n"
      ++ (str "**This release contains changes from the following pull requests:**\r\n" ++ prL)
      ++ (str "\r\n**Deploy Blockers:**\r\n" ++ blkL) =
    bodyShape anchor prev prL blkL := by
  unfold bodyShape getComparisonURL
  simp [str, prSectionPat, blockerSectionPat, List.append_assoc]

set_option maxHeartbeats 1000000 in
/-- C4: corrected round trip.  The unconditional claim fails (see the
counterexample: with no deploy blockers the encoded body does not decode), but
under the conditions in which the encode step actually produces a body text —
the comparator resolves against the tag listing, both input lists are nonempty,
and every entry is a canonical GitHub URL — decoding the encoded body recovers
exactly the tag, the comparison URL, and the deduplicated, ascending-sorted PR
and deploy-blocker lists; the verified/resolved checkbox state is dropped. -/
theorem decode_encode_roundtrip (tags : List Version) (anchor prev : Version)
    (title url : Str) (labels : List Str)
    (PRList verifiedPRList deployBlockers resolvedDeployBlockers : List Str)
    (hfind : tags.find? (fun t => satisfiesLevel SemverLevel.build anchor t) = some prev)
    (hPRne : PRList ≠ []) (hBLne : deployBlockers ≠ [])
    (hPR : ∀ u ∈ PRList, CanonURLFor [str "/pull/"] u)
    (hBL : ∀ u ∈ deployBlockers, CanonURLFor itemSegs u)
    (body : Str)
    (hbody : generateStagingDeployCashBody (Except.ok tags) anchor
        PRList verifiedPRList deployBlockers resolvedDeployBlockers = EncodeOutcome.body body) :
    getStagingDeployCashData ⟨title, url, labels, body⟩ =
      Except.ok ⟨title, url, labels, versionToStr anchor,
        getComparisonURL (versionToStr prev) (versionToStr anchor),
        sortedPRListOf PRList, sortedDeployBlockersOf deployBlockers⟩ := by
  have hcomp : generateVersionComparisonURL (Except.ok tags) anchor SemverLevel.build =
      Outcome.resolved (getComparisonURL (versionToStr prev) (versionToStr anchor)) := by
    simp only [generateVersionComparisonURL, hfind]
  have hPR2 : ∀ u ∈ PRList, CanonURLFor itemSegs u := by
    intro u hu
    refine canonURL_mono ?_ (hPR u hu)
    intro s hs
    rcases List.mem_singleton.mp hs with rfl
    simp [itemSegs]
  have hcond : ((uniqueList PRList).all (fun u => isOkNat (getPullRequestNumberFromURL u)) &&
      (uniqueList deployBlockers).all
        (fun u => isOkNat (getIssueOrPullRequestNumberFromURL u))) = true := by
    rw [Bool.and_eq_true]
    constructor
    · rw [List.all_eq_true]
      intro u hu
      obtain ⟨k, hk⟩ := canonURL_scan_ok (hPR u (mem_of_uniqueList hu))
      simp only [getPullRequestNumberFromURL, hk, isOkNat]
    · rw [List.all_eq_true]
      intro u hu
      obtain ⟨k, hk⟩ := canonURL_scan_ok (hBL u (mem_of_uniqueList hu))
      simp only [itemSegs] at hk
      simp only [getIssueOrPullRequestNumberFromURL, hk, isOkNat]
  unfold generateStagingDeployCashBody at hbody
  simp only [hcomp] at hbody
  rw [if_pos hcond] at hbody
  rw [isEmpty_false_of_ne_nil hPRne, isEmpty_false_of_ne_nil hBLne] at hbody
  simp only [Bool.false_eq_true, if_false] at hbody
  rw [encode_body_shape] at hbody
  have hb : body = bodyShape anchor prev
      (((sortedPRListOf PRList).map (fun u => renderLine (verifiedPRList.contains u) u)).flatten)
      (((sortedDeployBlockersOf deployBlockers).map (fun u => renderLine (resolvedDeployBlockers.contains u) u)).flatten) := by
    injection hbody with h
    exact h.symm
  subst hb
  have hPRm : ∀ u ∈ sortedPRListOf PRList, CanonURLFor itemSegs u :=
    fun u hu => hPR2 u (mem_sortedPRListOf hu)
  have hBLm : ∀ u ∈ sortedDeployBlockersOf deployBlockers, CanonURLFor itemSegs u :=
    fun u hu => hBL u (mem_sortedDeployBlockersOf hu)
  have hsegSpace : ∀ seg ∈ itemSegs, ∀ c ∈ seg, c ≠ ' ' := by decide
  have hpc : ∀ l ∈ (((sortedPRListOf PRList).map (fun u => (verifiedPRList.contains u, u))).map (fun i => lineContent i.1 i.2)), ∀ c ∈ l, notCRLF c = true := by
    intro l hl
    obtain ⟨i, hi, rfl⟩ := List.mem_map.mp hl
    obtain ⟨u, hu, rfl⟩ := List.mem_map.mp hi
    exact lineContent_notCRLF _ u (canonURL_itemMatchable (hPRm u hu)).1
  have hbc : ∀ l ∈ (((sortedDeployBlockersOf deployBlockers).map (fun u => (resolvedDeployBlockers.contains u, u))).map (fun i => lineContent i.1 i.2)), ∀ c ∈ l, notCRLF c = true := by
    intro l hl
    obtain ⟨i, hi, rfl⟩ := List.mem_map.mp hl
    obtain ⟨u, hu, rfl⟩ := List.mem_map.mp hi
    exact lineContent_notCRLF _ u (canonURL_itemMatchable (hBLm u hu)).1
  have htc : ∀ l ∈ (str "**Deploy Blockers:**" :: (((sortedDeployBlockersOf deployBlockers).map (fun u => (resolvedDeployBlockers.contains u, u))).map (fun i => lineContent i.1 i.2))), ∀ c ∈ l, notCRLF c = true := by
    intro l hl
    rcases List.mem_cons.mp hl with rfl | h2
    · decide
    · exact hbc l h2
  have hpcne : (((sortedPRListOf PRList).map (fun u => (verifiedPRList.contains u, u))).map (fun i => lineContent i.1 i.2)) ≠ [] := by
    intro h0
    apply sortedPRListOf_ne_nil hPRne
    simpa using h0
  have hbcne : (((sortedDeployBlockersOf deployBlockers).map (fun u => (resolvedDeployBlockers.contains u, u))).map (fun i => lineContent i.1 i.2)) ≠ [] := by
    intro h0
    apply sortedDeployBlockersOf_ne_nil hBLne
    simpa using h0
  have htcne : ∀ l ∈ (str "**Deploy Blockers:**" :: (((sortedDeployBlockersOf deployBlockers).map (fun u => (resolvedDeployBlockers.contains u, u))).map (fun i => lineContent i.1 i.2))), l ≠ [] := by
    intro l hl
    rcases List.mem_cons.mp hl with rfl | h2
    · decide
    · obtain ⟨i, hi, rfl⟩ := List.mem_map.mp h2
      exact lineContent_ne_nil i.1 i.2
  have hprFlat : ((sortedPRListOf PRList).map (fun u => renderLine (verifiedPRList.contains u) u)).flatten = ((((sortedPRListOf PRList).map (fun u => (verifiedPRList.contains u, u))).map (fun i => lineContent i.1 i.2)).map (fun c => c ++ str "\r\n")).flatten := by
    rw [renderMap_eq]
  have hblkFlat : ((sortedDeployBlockersOf deployBlockers).map (fun u => renderLine (resolvedDeployBlockers.contains u) u)).flatten = ((((sortedDeployBlockersOf deployBlockers).map (fun u => (resolvedDeployBlockers.contains u, u))).map (fun i => lineContent i.1 i.2)).map (fun c => c ++ str "\r\n")).flatten := by
    rw [renderMap_eq]
  have hjoin : ((((sortedPRListOf PRList).map (fun u => (verifiedPRList.contains u, u))).map (fun i => lineContent i.1 i.2)).map (fun c => c ++ str "\r\n")).flatten ++
      (str "\r\n**" ++ (blockerSectionPat ++ ((((sortedDeployBlockersOf deployBlockers).map (fun u => (resolvedDeployBlockers.contains u, u))).map (fun i => lineContent i.1 i.2)).map (fun c => c ++ str "\r\n")).flatten)) =
      ((((((sortedPRListOf PRList).map (fun u => (verifiedPRList.contains u, u))).map (fun i => lineContent i.1 i.2)) ++ [] :: (str "**Deploy Blockers:**" :: (((sortedDeployBlockersOf deployBlockers).map (fun u => (resolvedDeployBlockers.contains u, u))).map (fun i => lineContent i.1 i.2))))).map
        (fun c => c ++ str "\r\n")).flatten := by
    rw [List.map_append, List.flatten_append]
    simp [str, blockerSectionPat, List.append_assoc]
  have hR1 := bodyShape_versionFirstMatch anchor prev
    (((sortedPRListOf PRList).map (fun u => renderLine (verifiedPRList.contains u) u)).flatten) (((sortedDeployBlockersOf deployBlockers).map (fun u => renderLine (resolvedDeployBlockers.contains u) u)).flatten)
  have hR2 := bodyShape_compareFirstMatch anchor prev
    (((sortedPRListOf PRList).map (fun u => renderLine (verifiedPRList.contains u) u)).flatten) (((sortedDeployBlockersOf deployBlockers).map (fun u => renderLine (resolvedDeployBlockers.contains u) u)).flatten)
  have hatt3 : prSectionAttempt (prSectionPat ++
      (((sortedPRListOf PRList).map (fun u => renderLine (verifiedPRList.contains u) u)).flatten ++ (str "\r\n**" ++ (blockerSectionPat ++ ((sortedDeployBlockersOf deployBlockers).map (fun u => renderLine (resolvedDeployBlockers.contains u) u)).flatten)))) =
      some (((sortedPRListOf PRList).map (fun u => renderLine (verifiedPRList.contains u) u)).flatten) := by
    rw [hprFlat, hblkFlat, hjoin]
    exact prSectionAttempt_group _ _ hpc htc hpcne htcne
  have hR3 := bodyShape_prSectionMatch anchor prev
    (((sortedPRListOf PRList).map (fun u => renderLine (verifiedPRList.contains u) u)).flatten) (((sortedDeployBlockersOf deployBlockers).map (fun u => renderLine (resolvedDeployBlockers.contains u) u)).flatten) (((sortedPRListOf PRList).map (fun u => renderLine (verifiedPRList.contains u) u)).flatten) hatt3
  have hsp : ∀ i ∈ ((sortedPRListOf PRList).map (fun u => (verifiedPRList.contains u, u))), ' ' ∉ i.2 := by
    intro i hi
    obtain ⟨u, hu, rfl⟩ := List.mem_map.mp hi
    exact canonURL_no_space (hPRm u hu) hsegSpace
  have hpf : PairFree 'y' ' ' (((sortedPRListOf PRList).map (fun u => renderLine (verifiedPRList.contains u) u)).flatten) := by
    have h := prLines_pairFree ((sortedPRListOf PRList).map (fun u => (verifiedPRList.contains u, u))) hsp
    rw [map_pair_comp (fun u => verifiedPRList.contains u) (sortedPRListOf PRList) renderLine] at h
    exact h
  have hatt4 : blockerSectionAttempt (blockerSectionPat ++ ((sortedDeployBlockersOf deployBlockers).map (fun u => renderLine (resolvedDeployBlockers.contains u) u)).flatten) = some (((sortedDeployBlockersOf deployBlockers).map (fun u => renderLine (resolvedDeployBlockers.contains u) u)).flatten) := by
    rw [hblkFlat]
    exact blockerSectionAttempt_group _ hbc hbcne
  have hR4 := bodyShape_blockerSectionMatch anchor prev
    (((sortedPRListOf PRList).map (fun u => renderLine (verifiedPRList.contains u) u)).flatten) (((sortedDeployBlockersOf deployBlockers).map (fun u => renderLine (resolvedDeployBlockers.contains u) u)).flatten) (((sortedDeployBlockersOf deployBlockers).map (fun u => renderLine (resolvedDeployBlockers.contains u) u)).flatten) hpf hatt4
  have hitems : ∀ i ∈ ((sortedPRListOf PRList).map (fun u => (verifiedPRList.contains u, u))), ItemMatchable i.2 := by
    intro i hi
    obtain ⟨u, hu, rfl⟩ := List.mem_map.mp hi
    exact canonURL_itemMatchable (hPRm u hu)
  have hbitems : ∀ i ∈ ((sortedDeployBlockersOf deployBlockers).map (fun u => (resolvedDeployBlockers.contains u, u))), ItemMatchable i.2 := by
    intro i hi
    obtain ⟨u, hu, rfl⟩ := List.mem_map.mp hi
    exact canonURL_itemMatchable (hBLm u hu)
  have hscanPR : checklistScan (((sortedPRListOf PRList).map (fun u => renderLine (verifiedPRList.contains u) u)).flatten) = sortedPRListOf PRList := by
    have h2 : ((sortedPRListOf PRList).map (fun u => renderLine (verifiedPRList.contains u) u)).flatten = (((sortedPRListOf PRList).map (fun u => (verifiedPRList.contains u, u))).map (fun i => renderLine i.1 i.2)).flatten := by
      rw [map_pair_comp (fun u => verifiedPRList.contains u) (sortedPRListOf PRList) renderLine]
    rw [h2]
    unfold checklistScan
    rw [checklistScanAux_lines _ hitems _ (Nat.le_refl _)]
    rw [map_pair_snd]
  have hscanBL : checklistScan (((sortedDeployBlockersOf deployBlockers).map (fun u => renderLine (resolvedDeployBlockers.contains u) u)).flatten) = sortedDeployBlockersOf deployBlockers := by
    have h2 : ((sortedDeployBlockersOf deployBlockers).map (fun u => renderLine (resolvedDeployBlockers.contains u) u)).flatten = (((sortedDeployBlockersOf deployBlockers).map (fun u => (resolvedDeployBlockers.contains u, u))).map (fun i => renderLine i.1 i.2)).flatten := by
      rw [map_pair_comp (fun u => resolvedDeployBlockers.contains u)
        (sortedDeployBlockersOf deployBlockers) renderLine]
    rw [h2]
    unfold checklistScan
    rw [checklistScanAux_lines _ hbitems _ (Nat.le_refl _)]
    rw [map_pair_snd]
  unfold getStagingDeployCashData
  simp only [hR1, hR2, hR3, hR4]
  rw [stripTicks_versionToStr, hscanPR, hscanBL]

set_option maxRecDepth 40000 in
/-- Evaluation of the corrected round trip at a concrete input: one PR, one
deploy blocker, a previous tag 1.0.0 for anchor 1.0.1. -/
theorem decode_encode_roundtrip_witness :
    getStagingDeployCashData ⟨str "t", str "u", [],
      str "**Release Version:** 1.0.1\r\n**Compare Changes:** https://github.com/Expensify/Expensify.cash/compare/1.0.0...1.0.1\r\n**This release contains changes from the following pull requests:**\r\n- [ ] https://github.com/Org/Repo/pull/2\r\n\r\n**Deploy Blockers:**\r\n- [ ] https://github.com/Org/Repo/issues/3\r\n"⟩ =
      Except.ok ⟨str "t", str "u", [], versionToStr ⟨1, 0, 1, none⟩,
        getComparisonURL (versionToStr ⟨1, 0, 0, none⟩) (versionToStr ⟨1, 0, 1, none⟩),
        sortedPRListOf [str "https://github.com/Org/Repo/pull/2"],
        sortedDeployBlockersOf [str "https://github.com/Org/Repo/issues/3"]⟩ :=
  decode_encode_roundtrip [⟨1, 0, 0, none⟩] ⟨1, 0, 1, none⟩ ⟨1, 0, 0, none⟩
    (str "t") (str "u") []
    [str "https://github.com/Org/Repo/pull/2"] []
    [str "https://github.com/Org/Repo/issues/3"] []
    (by decide) (by decide) (by decide)
    (by
      intro u hu
      rcases List.mem_singleton.mp hu with rfl
      exact ⟨str "Org", str "Repo", str "/pull/", 2, by decide, by decide, by decide,
        by decide, by decide, by decide, by decide⟩)
    (by
      intro u hu
      rcases List.mem_singleton.mp hu with rfl
      exact ⟨str "Org", str "Repo", str "/issues/", 3, by decide, by decide, by decide,
        by decide, by decide, by decide, by decide⟩)
    (str "**Release Version:** 1.0.1\r\n**Compare Changes:** https://github.com/Expensify/Expensify.cash/compare/1.0.0...1.0.1\r\n**This release contains changes from the following pull requests:**\r\n- [ ] https://github.com/Org/Repo/pull/2\r\n\r\n**Deploy Blockers:**\r\n- [ ] https://github.com/Org/Repo/issues/3\r\n")
    (by decide)
